import Mathlib

/-!
# GaiaFramework: service runtime, dispatch tables, launcher and clients

A shallow embedding of `src/GaiaFramework/Service.cpp`, `Service.hpp`, `Launcher.hpp`,
`Clients/NameClient.cpp`, `Clients/LogClient.cpp` and `Clients/LogRecorder.cpp`.

Conventions of the embedding.

* A `std::string` is a Lean `String`; one Lean character stands for one C++ `char`,
  so `size()` is `String.length`.
* A `std::function<void(const std::string&)>` is an `Option Callable`: `none` is the
  empty function object, which the dispatch code tests with `if (!handler)`.
* Everything a run of the service lets an observer see (handlers being called, hooks
  being called, lines handed to the logger, subscriptions sent to the bus) is appended
  to `Service.Trace`. The log client, the subscriber and the name client are taken as
  constructed, as they are once `Connect` has returned.
* Time is a natural number of milliseconds.
* The Redis server is modelled after the Redis command reference: a key holds a value
  and an optional expiry instant.
-/

namespace Gaia.Framework

/-! ## Containers -/

namespace UnorderedMap

/-- Lookup of `std::unordered_map::find`: the mapped value of `key`, `none` for `end()`. -/
def find {β : Type} (m : List (String × β)) (key : String) : Option β :=
  match m with
  | [] => none
  | (k, v) :: rest => if k = key then some v else find rest key

/-- Insertion of `std::unordered_map::emplace`: nothing is inserted when the key is
already present. -/
def emplace {β : Type} (m : List (String × β)) (key : String) (value : β) :
    List (String × β) :=
  match find m key with
  | some _ => m
  | none => m ++ [(key, value)]

/-- Removal of `std::unordered_map::erase(key)`. -/
def erase {β : Type} (m : List (String × β)) (key : String) : List (String × β) :=
  m.filter (fun p => p.1 ≠ key)

end UnorderedMap

namespace UnorderedMultimap

/-- Insertion of `std::unordered_multimap::emplace`: always inserts. -/
def emplace {β : Type} (m : List (String × β)) (key : String) (value : β) :
    List (String × β) :=
  m ++ [(key, value)]

/-- The elements of `std::unordered_multimap::equal_range(key)`. -/
def equal_range {β : Type} (m : List (String × β)) (key : String) : List (String × β) :=
  m.filter (fun p => p.1 = key)

/-- Removal of `std::unordered_multimap::erase(key)`: every element with that key. -/
def erase {β : Type} (m : List (String × β)) (key : String) : List (String × β) :=
  m.filter (fun p => p.1 ≠ key)

end UnorderedMultimap

/-! ## Handlers, events and the service object -/

/-- A non-empty handler function object. `pause`, `resume` and `shutdown` are the three
lambdas created in `Service::Install`; `user id` is a callable supplied by the
application, of which only the fact that it ran is observed. -/
inductive Callable where
  | pause
  | resume
  | shutdown
  | user (id : Nat)
  deriving DecidableEq, Repr

/-- The type `Service::MessageHandler`; `none` is the empty `std::function`. -/
abbrev MessageHandler := Option Callable

/-- The virtual extension hooks of `Service`. -/
inductive Hook where
  | OnConnect
  | OnInstall
  | OnUninstall
  | OnUpdate
  deriving DecidableEq, Repr

/-- One observable step of a service. -/
inductive Event where
  | Invoke (handler : Callable) (content : String)
  | RecordError (text : String)
  | RecordMilestone (text : String)
  | Hook (hook : Hook)
  | Subscribe (channel : String)
  | Unsubscribe (channel : String)
  | Publish (channel : String) (message : String)
  | PSubscribe (pattern : String)
  deriving DecidableEq, Repr

/-- The handler calls of a trace, in order: which callable ran, with which argument. -/
def invocations : List Event → List (Callable × String)
  | [] => []
  | Event.Invoke h c :: rest => (h, c) :: invocations rest
  | _ :: rest => invocations rest

/-- The error lines of a trace, in order. -/
def errors : List Event → List String
  | [] => []
  | Event.RecordError t :: rest => t :: errors rest
  | _ :: rest => errors rest

/-- The fields of `class Service` that the run loop and the dispatch code read or write,
together with the trace of what the object has done so far. -/
structure Service where
  Name : String
  Enable : Bool
  LifeFlag : Bool
  CommandHandlers : List (String × MessageHandler)
  MessageHandlers : List (String × MessageHandler)
  LastHeartBeatTime : Nat
  MessageUpdaterRunning : Bool
  Trace : List Event
  deriving DecidableEq, Repr

namespace Service

/-- The object right after `Service::Service(name)`: `Enable {true}`, `LifeFlag {true}`,
empty tables, a default-constructed time point, the updater not started. -/
def create (name : String) : Service :=
  { Name := name, Enable := true, LifeFlag := true, CommandHandlers := [],
    MessageHandlers := [], LastHeartBeatTime := 0, MessageUpdaterRunning := false,
    Trace := [] }

/-- Append one event to the trace. -/
def record (s : Service) (e : Event) : Service :=
  { s with Trace := s.Trace ++ [e] }

end Service

/-- Calling a handler with `content`. The bodies of the three built-in lambdas are those
of `Service::Install`. -/
def Callable.call (h : Callable) (content : String) (s : Service) : Service :=
  let s := s.record (Event.Invoke h content)
  match h with
  | Callable.pause =>
      ({ s with Enable := false }).record
        (Event.RecordMilestone ("Service paused by command. " ++ content))
  | Callable.resume =>
      ({ s with Enable := true }).record
        (Event.RecordMilestone ("Service resumed by command. " ++ content))
  | Callable.shutdown =>
      ({ s with LifeFlag := false }).record
        (Event.RecordMilestone ("Service shutdown by command. " ++ content))
  | Callable.user _ => s

namespace Service

/-- Embeds `Service::AddCommand`. -/
def AddCommand (s : Service) (name : String) (handler : MessageHandler) : Service :=
  { s with CommandHandlers := UnorderedMap.emplace s.CommandHandlers name handler }

/-- Embeds `Service::RemoveCommand`. -/
def RemoveCommand (s : Service) (name : String) : Service :=
  { s with CommandHandlers := UnorderedMap.erase s.CommandHandlers name }

/-- Embeds `Service::AddSubscription`. -/
def AddSubscription (s : Service) (channel_name : String) (handler : MessageHandler) :
    Service :=
  ({ s with MessageHandlers :=
      UnorderedMultimap.emplace s.MessageHandlers channel_name handler }).record
    (Event.Subscribe channel_name)

/-- Embeds `Service::RemoveSubscription`. -/
def RemoveSubscription (s : Service) (channel_name : String) : Service :=
  let s := s.record (Event.Unsubscribe channel_name)
  { s with MessageHandlers := UnorderedMultimap.erase s.MessageHandlers channel_name }

/-- Embeds `Service::HandleCommand`. -/
def HandleCommand (s : Service) (name content : String) : Service :=
  match UnorderedMap.find s.CommandHandlers name with
  | none => s.record (Event.RecordError ("Unknown command received: " ++ name))
  | some none => s.record (Event.RecordError ("Invalid command handler: " ++ name))
  | some (some h) => h.call content s

/-- Embeds `Service::HandleMessage`. The handlers of the range are run one after the
other in the order of the range; `tbb::parallel_for_each` fixes no order, so statements
about this function speak of the calls up to permutation. -/
def HandleMessage (s : Service) (channel content : String) : Service :=
  match UnorderedMultimap.equal_range s.MessageHandlers channel with
  | [] => s.record (Event.RecordError ("Unknown message received: " ++ channel))
  | range =>
      range.foldl
        (fun t pair =>
          match pair.2 with
          | some h => h.call content t
          | none => t)
        s

end Service

/-! ## Strings and the command channel -/

/-- Index of the last occurrence of `c` in a list of characters. -/
def lastIndexOf (c : Char) : List Char → Option Nat
  | [] => none
  | x :: rest =>
      match lastIndexOf c rest with
      | some i => some (i + 1)
      | none => if x = c then some 0 else none

/-- The result of `std::string::find_last_of(c)`; `none` is `npos`. -/
def find_last_of (s : String) (c : Char) : Option Nat :=
  lastIndexOf c s.data

/-- The result of `std::string::substr(pos)` for `pos <= size()`. -/
def substr (s : String) (pos : Nat) : String :=
  String.mk (s.data.drop pos)

namespace Service

/-- The callback given to `Subscriber->on_pmessage` in `Service::Connect`. -/
def on_pmessage (s : Service) (_pattern channel message : String) : Service :=
  if channel.length < 4 then s
  else
    match find_last_of channel '/' with
    | none => s.record (Event.RecordError ("Error format command " ++ channel))
    | some command_slash_index =>
        let command_name := substr channel (command_slash_index + 1)
        if command_name = "command" then s.HandleCommand message ""
        else s.HandleCommand command_name message

/-- The callback given to `Subscriber->on_message` in `Service::Connect`. -/
def on_message (s : Service) (channel message : String) : Service :=
  s.HandleMessage channel message

/-- The pattern given to `Subscriber->psubscribe` in `Service::Connect`. -/
def commandPattern (s : Service) : String :=
  s.Name ++ "/command*"

/-- Embeds `Service::SendServiceCommand`. -/
def SendServiceCommand (s : Service) (service_name command_name content : String) :
    Service :=
  s.record (Event.Publish (service_name ++ "/command/" ++ command_name) content)

/-! ## Life cycle -/

/-- The default body of the virtual `OnUpdate`, which is empty; the call is recorded. -/
def OnUpdate (s : Service) : Service :=
  s.record (Event.Hook Hook.OnUpdate)

/-- The default body of the virtual `OnUninstall`, which is empty; the call is
recorded. -/
def OnUninstall (s : Service) : Service :=
  s.record (Event.Hook Hook.OnUninstall)

/-- Embeds `Service::Update`: the updated object and the returned flag. -/
def Update (s : Service) : Service × Bool :=
  let s := if s.Enable then s.OnUpdate else s
  (s, s.LifeFlag)

end Service

/-- One call of the protected registration interface, as an override of `OnInstall`
makes them (`src/TestService/Launcher.cpp` calls `AddCommand` and `AddSubscription`). -/
inductive Registration where
  | AddCommand (name : String) (handler : MessageHandler)
  | RemoveCommand (name : String)
  | AddSubscription (channel_name : String) (handler : MessageHandler)
  | RemoveSubscription (channel_name : String)
  deriving DecidableEq, Repr

/-- Perform one registration call on the service. -/
def Registration.apply (s : Service) : Registration → Service
  | Registration.AddCommand name handler => s.AddCommand name handler
  | Registration.RemoveCommand name => s.RemoveCommand name
  | Registration.AddSubscription channel_name handler =>
      s.AddSubscription channel_name handler
  | Registration.RemoveSubscription channel_name => s.RemoveSubscription channel_name

namespace Service

/-- The virtual `OnInstall`: the call is recorded, then the registration calls of the
override run in order. The default body is the empty list. -/
def OnInstall (body : List Registration) (s : Service) : Service :=
  body.foldl Registration.apply (s.record (Event.Hook Hook.OnInstall))

/-- Embeds `Service::Install`; `body` is the body of `OnInstall` and `now` the value of
`std::chrono::system_clock::now()`. -/
def Install (s : Service) (body : List Registration) (now : Nat) : Service :=
  let s := { s with Enable := true }
  let s := { s with CommandHandlers := [] }
  let s := s.AddCommand "pause" (some Callable.pause)
  let s := s.AddCommand "resume" (some Callable.resume)
  let s := s.AddCommand "shutdown" (some Callable.shutdown)
  let s := { s with LastHeartBeatTime := now }
  let s := s.OnInstall body
  { s with MessageUpdaterRunning := true }

/-- Embeds `Service::Uninstall`. -/
def Uninstall (s : Service) : Service :=
  let s := { s with Enable := false }
  let s := { s with MessageUpdaterRunning := false }
  s.OnUninstall

end Service

/-- One step of the life of a service: the calls the launcher makes and a command
handled by the consumer. -/
inductive Operation where
  | Install (body : List Registration) (now : Nat)
  | Uninstall
  | Update
  | Command (name : String) (content : String)
  deriving DecidableEq, Repr

/-- Perform one operation. -/
def Operation.apply (s : Service) : Operation → Service
  | Operation.Install body now => s.Install body now
  | Operation.Uninstall => s.Uninstall
  | Operation.Update => s.Update.1
  | Operation.Command name content => s.HandleCommand name content

/-- Perform a sequence of operations, first to last. -/
def runOperations (ops : List Operation) (s : Service) : Service :=
  ops.foldl Operation.apply s

/-- Call `Update` the given number of times and keep the object. -/
def updateTimes : Nat → Service → Service
  | 0, s => s
  | n + 1, s => updateTimes n s.Update.1

/-! ## The Redis server and the name client -/

/-- The duration `std::chrono::seconds(n)`, in milliseconds. -/
def seconds (n : Nat) : Nat := 1000 * n

/-- What a Redis key holds: its value and, when it has a time to live, the instant at
which it lapses. -/
structure RedisEntry where
  value : String
  expire_at : Option Nat
  deriving DecidableEq, Repr

/-- The key space of the Redis server. -/
abbrev Redis := List (String × RedisEntry)

namespace Redis

/-- A key with a time to live is gone from its expiry instant on. -/
def alive (now : Nat) (e : RedisEntry) : Bool :=
  match e.expire_at with
  | none => true
  | some t => decide (now < t)

/-- The entry a command sees under `key` at time `now`. -/
def entry (db : Redis) (now : Nat) (key : String) : Option RedisEntry :=
  match UnorderedMap.find db key with
  | some e => if alive now e then some e else none
  | none => none

/-- The command `GET key`. -/
def GET (db : Redis) (now : Nat) (key : String) : Option String :=
  (entry db now key).map (fun e => e.value)

/-- The command `EXISTS key`. -/
def EXISTS (db : Redis) (now : Nat) (key : String) : Bool :=
  (entry db now key).isSome

/-- The command `SET key value` (`ttl = none`, any previous time to live is discarded)
and `SET key value PX ttl` (`ttl = some _`). -/
def SET (db : Redis) (now : Nat) (key value : String) (ttl : Option Nat) : Redis :=
  (key, { value := value, expire_at := ttl.map (fun d => now + d) }) ::
    UnorderedMap.erase db key

/-- The command `DEL key`. -/
def DEL (db : Redis) (key : String) : Redis :=
  UnorderedMap.erase db key

/-- The command `EXPIRE key ttl`: sets the time to live of a key that exists. -/
def EXPIRE (db : Redis) (now : Nat) (key : String) (ttl : Nat) : Redis :=
  match entry db now key with
  | some e => (key, { e with expire_at := some (now + ttl) }) :: UnorderedMap.erase db key
  | none => db

end Redis

namespace Clients

/-- The state of a `NameClient`: the server behind `Connection` and the update list
`Names`. -/
structure NameClient where
  Connection : Redis
  Names : List (String × String)
  deriving DecidableEq, Repr

namespace NameClient

/-- Embeds `NameClient::RegisterName`. -/
def RegisterName (c : NameClient) (now : Nat) (name address : String) : NameClient :=
  let c := { c with
    Connection := Redis.SET c.Connection now ("names/" ++ name) address (some (seconds 3)) }
  { c with Names := UnorderedMap.emplace c.Names name address }

/-- Embeds `NameClient::UnregisterName`. -/
def UnregisterName (c : NameClient) (name : String) : NameClient :=
  let c := { c with Connection := Redis.DEL c.Connection ("names/" ++ name) }
  { c with Names := UnorderedMap.erase c.Names name }

/-- Embeds `NameClient::UpdateName`. In the second branch the source reads
`Connection->set("names/" + name, address), std::chrono::seconds(2);`: the duration is
the right operand of a comma operator, and `set` is called with two arguments. -/
def UpdateName (c : NameClient) (now : Nat) (name address : String) : NameClient :=
  if Redis.EXISTS c.Connection now name then
    { c with Connection := Redis.EXPIRE c.Connection now ("names/" ++ name) (seconds 2) }
  else
    { c with Connection := Redis.SET c.Connection now ("names/" ++ name) address none }

/-- Embeds `NameClient::QueryAddress`. -/
def QueryAddress (c : NameClient) (now : Nat) (name : String) : String :=
  (Redis.GET c.Connection now name).getD ""

/-- Embeds `NameClient::Update`. -/
def Update (c : NameClient) (now : Nat) : NameClient :=
  c.Names.foldl (fun t entry => UpdateName t now entry.1 entry.2) c

/-- Embeds `NameClient::IsNameValid`. -/
def IsNameValid (c : NameClient) (now : Nat) (name : String) : Bool :=
  Redis.EXISTS c.Connection now name

end NameClient

end Clients

/-! ## Registration sequences and views of the tables -/

/-- Register a list of commands through `AddCommand`, first to last. -/
def addCommands (regs : List (String × MessageHandler)) (s : Service) : Service :=
  regs.foldl (fun t r => t.AddCommand r.1 r.2) s

/-- Subscribe a list of handlers to one channel through `AddSubscription`, first to
last. -/
def addSubscriptions (channel_name : String) (hs : List MessageHandler) (s : Service) :
    Service :=
  hs.foldl (fun t h => t.AddSubscription channel_name h) s

/-- The handlers the topic table holds for a channel. -/
def handlersOn (s : Service) (channel : String) : List MessageHandler :=
  (UnorderedMultimap.equal_range s.MessageHandlers channel).map (fun p => p.2)

/-- The non-empty function objects of a list of handlers. -/
def callables (hs : List MessageHandler) : List Callable :=
  hs.filterMap (fun h => h)

/-- The body of `TestService::OnInstall` in `src/TestService/Launcher.cpp`. -/
def TestService.OnInstall : List Registration :=
  [Registration.AddCommand "hello" (some (Callable.user 0)),
   Registration.AddCommand "greet" (some (Callable.user 1)),
   Registration.AddSubscription "sample_channel" (some (Callable.user 2))]

/-- An `OnInstall` body that leaves the `pause` and `resume` entries of the command
table in place. -/
def keepsPauseResume (body : List Registration) : Prop :=
  Registration.RemoveCommand "pause" ∉ body ∧ Registration.RemoveCommand "resume" ∉ body

instance (body : List Registration) : Decidable (keepsPauseResume body) := by
  unfold keepsPauseResume
  infer_instance

/-- A service named `echo` on which a command named `a/b`, a command named `command`
and a command with an empty handler are registered. -/
def echoService : Service :=
  addCommands
    [("a/b", some (Callable.user 1)), ("command", some (Callable.user 2)), ("idle", none)]
    (Service.create "echo")

/-- A name client with an empty server and an empty update list. -/
def Clients.NameClient.connect : Clients.NameClient :=
  { Connection := [], Names := [] }

/-- A run of a test service: installed, updated once, then told to shut down. -/
def shutdownRun : List Operation :=
  [Operation.Install TestService.OnInstall 0, Operation.Update,
   Operation.Command "shutdown" "bye"]

/-- What may follow the shutdown: a resume command, a second `Install`, an update. -/
def afterShutdown : List Operation :=
  [Operation.Command "resume" "", Operation.Install [] 5, Operation.Update]

/-- The service after `Install` and a handled `pause` command with content `P`. -/
def pausedService (s0 : Service) (body : List Registration) (now : Nat) (P : String) :
    Service :=
  (s0.Install body now).HandleCommand "pause" P

/-- The paused service after `k` calls of `Update` and a handled `resume` command with
content `R`. -/
def resumedService (s0 : Service) (body : List Registration) (now : Nat) (P : String)
    (k : Nat) (R : String) : Service :=
  (updateTimes k (pausedService s0 body now P)).HandleCommand "resume" R

/-- A name client right after `RegisterName("svc", "addr")` at time 0 on an empty
server. -/
def Clients.NameClient.registered : Clients.NameClient :=
  Clients.NameClient.connect.RegisterName 0 "svc" "addr"

/-! ## Connecting and the background consumer -/

namespace Service

/-- The default body of the virtual `OnConnect`, which is empty; the call is recorded. -/
def OnConnect (s : Service) : Service :=
  s.record (Event.Hook Hook.OnConnect)

/-- Embeds `Service::Connect` for a server that accepts the connection: the command
pattern is subscribed, the callbacks `on_pmessage` and `on_message` are installed, the
clients are created and `OnConnect` runs. No table and no flag is written. -/
def Connect (s : Service) : Service :=
  (s.record (Event.PSubscribe s.commandPattern)).OnConnect

end Service

/-- One reply that `Subscriber->consume()` hands to a callback. -/
inductive Delivery where
  | pmessage (pattern : String) (channel : String) (message : String)
  | message (channel : String) (message : String)
  deriving DecidableEq, Repr

/-- Run the callback that belongs to a reply. -/
def Service.deliver (s : Service) : Delivery → Service
  | Delivery.pmessage pattern channel message => s.on_pmessage pattern channel message
  | Delivery.message channel message => s.on_message channel message

/-- What one call of `Subscriber->consume()` does: the replies it hands to the callbacks,
in order, and whether it then leaves by throwing `sw::redis::Error` (the socket timeout
of one second is such an error). -/
structure Consumed where
  deliveries : List Delivery
  error : Bool
  deriving DecidableEq, Repr

/-- A connected service together with its name client `NameResolver`. -/
structure Runtime where
  service : Service
  NameResolver : Clients.NameClient
  deriving DecidableEq, Repr

/-- One iteration of the loop in the `MessageUpdater` lambda of `Service::Service`:
`consume()`, then the heartbeat test with `current_time`; an `sw::redis::Error` leaves
the `try` block before the test. -/
def Runtime.MessageUpdaterPass (r : Runtime) (consumed : Consumed) (current_time : Nat) :
    Runtime :=
  let s := consumed.deliveries.foldl Service.deliver r.service
  if consumed.error then { r with service := s }
  else if s.LastHeartBeatTime + seconds 1 < current_time then
    { service := s, NameResolver := r.NameResolver.Update current_time }
  else { r with service := s }

/-- Two service objects that agree on every field but `Enable`. -/
def sameButEnable (a b : Service) : Prop :=
  a.Name = b.Name ∧ a.LifeFlag = b.LifeFlag ∧ a.CommandHandlers = b.CommandHandlers ∧
  a.MessageHandlers = b.MessageHandlers ∧ a.LastHeartBeatTime = b.LastHeartBeatTime ∧
  a.MessageUpdaterRunning = b.MessageUpdaterRunning ∧ a.Trace = b.Trace

instance (a b : Service) : Decidable (sameButEnable a b) := by
  unfold sameButEnable
  infer_instance

/-! ## Presence records: time to live and enumeration -/

/-- How many entries the key space holds under `key`. -/
def Redis.records (db : Redis) (key : String) : Nat :=
  (db.filter (fun p => p.1 = key)).length

/-- The time an entry still has to live at `now` is at least `d`; an entry without
expiry never lapses. -/
def RedisEntry.ttlAtLeast (e : RedisEntry) (now d : Nat) : Prop :=
  match e.expire_at with
  | none => True
  | some t => now + d ≤ t

instance (e : RedisEntry) (now d : Nat) : Decidable (e.ttlAtLeast now d) := by
  unfold RedisEntry.ttlAtLeast
  cases e.expire_at <;> infer_instance

/-- Call `NameClient::Update` the given number of times at the instant `now`. -/
def Clients.NameClient.refreshTimes : Nat → Clients.NameClient → Nat → Clients.NameClient
  | 0, c, _ => c
  | k + 1, c, now => refreshTimes k (c.Update now) now

/-- A name client right after `RegisterName("svc", "addr")` at time 0 on a server that
also holds a key `svc`. -/
def Clients.NameClient.shadowed : Clients.NameClient :=
  Clients.NameClient.RegisterName
    { Connection := [("svc", { value := "x", expire_at := none })], Names := [] }
    0 "svc" "addr"

/-- Whether a list of characters begins with another. -/
def beginsWith : List Char → List Char → Bool
  | [], _ => true
  | _ :: _, [] => false
  | a :: p, b :: s => a = b && beginsWith p s

/-- The glob pattern `names/*`. -/
def matchesNames (key : String) : Bool :=
  beginsWith "names/".data key.data

/-- The keys that have not lapsed at `now`, in the order in which the server walks
them. -/
def Redis.keys (db : Redis) (now : Nat) : List String :=
  (db.filter (fun p => Redis.alive now p.2)).map (fun p => p.1)

/-- The command `SCAN cursor MATCH pattern` of a server that visits `count` keys per
call: the cursor to continue with, which is 0 once the walk is complete, and the
visited keys that match. A walk starts at cursor 0. -/
def Redis.SCAN (db : Redis) (now count cursor : Nat) (pattern : String → Bool) :
    Nat × List String :=
  let visited := ((Redis.keys db now).drop cursor).take count
  let next := if cursor + count < (Redis.keys db now).length then cursor + count else 0
  (next, visited.filter pattern)

/-- Insertion of `std::unordered_set::insert`. -/
def UnorderedSet.insert (set : List String) (value : String) : List String :=
  if value ∈ set then set else set ++ [value]

namespace Clients.NameClient

/-- The do-while loop of `NameClient::GetNames`. Every iteration calls
`Connection->scan(0, "names/*", results.end())`: the cursor argument is the literal 0
and the output iterator is `results.end()`. Writing through the end iterator of a list
is undefined; `output results batch` stands for the list afterwards. `none` means that
the loop has not ended within `fuel` iterations. -/
def scanLoop (c : NameClient) (now count : Nat)
    (output : List String → List String → List String) :
    Nat → List String → Option (List String)
  | 0, _ => none
  | fuel + 1, results =>
      let reply := Redis.SCAN c.Connection now count 0 matchesNames
      let results := output results reply.2
      if reply.1 ≠ 0 then scanLoop c now count output fuel results else some results

/-- Embeds `NameClient::GetNames`: the loop, then the set of the results without their
first 6 characters. -/
def GetNames (c : NameClient) (now count : Nat)
    (output : List String → List String → List String) (fuel : Nat) :
    Option (List String) :=
  (scanLoop c now count output fuel []).map
    (fun results =>
      results.foldl (fun names result => UnorderedSet.insert names (substr result 6)) [])

/-- A server with eleven presence records, one more than the ten keys a `SCAN` call
visits by default. -/
def crowded : NameClient :=
  { Connection :=
      (List.range 11).map
        (fun i => ("names/svc" ++ toString i, { value := "addr", expire_at := none })),
    Names := [] }

end Clients.NameClient

/-- A test service that is installed and has its name registered, as a runtime. -/
def TestService.runtime : Runtime :=
  { service := (Service.create "svc").Install TestService.OnInstall 0,
    NameResolver := Clients.NameClient.registered }

/-- The same runtime with the service paused: only `Enable` differs. -/
def TestService.pausedRuntime : Runtime :=
  { service := { (Service.create "svc").Install TestService.OnInstall 0 with Enable := false },
    NameResolver := Clients.NameClient.registered }

/-- One call of `consume()` that delivers a command and a message. -/
def TestService.traffic : Consumed :=
  { deliveries :=
      [Delivery.pmessage "svc/command*" "svc/command/greet" "you",
       Delivery.message "sample_channel" "hi"],
    error := false }

/-! ## The launcher -/

/-- What a throw expression raised: an object of a class derived from `std::exception`,
which the handler `catch (std::exception& error)` of `Launch` catches, or an object of
any other type, which it does not catch. -/
inductive Thrown where
  | std_exception (what : String)
  | other
  deriving DecidableEq, Repr

/-- The calls `Launch` makes in one attempt. -/
inductive Stage where
  | Construct
  | ParseOptions
  | Connect
  | Install
  | Update
  | Uninstall
  deriving DecidableEq, Repr

/-- A call of one attempt that has returned; for `Update`, with the value returned. -/
inductive Step where
  | Constructed
  | Parsed
  | Connected
  | Installed
  | Updated (result : Bool)
  | Uninstalled
  deriving DecidableEq, Repr

/-- The command line as `Launch` sees it: `absent` when the test
`command_line_counts > 0 && command_line && *command_line` fails, `invalid` when
`parse_command_line` throws (its errors derive from `std::exception`), otherwise the
parsed options. -/
inductive CommandLine where
  | absent
  | invalid (what : String)
  | options (help : Bool) (host : String) (port : Nat)
  deriving DecidableEq, Repr

/-- What surrounds one call of `Update` in the loop `while (service->Update());`: the
replies the background consumer handles before the call, and what the call throws, if
anything. -/
structure Tick where
  inbound : List Delivery
  thrown : Option Thrown
  deriving DecidableEq, Repr

/-- What the surroundings do to one attempt: what each call throws, if anything, the
body of `OnInstall`, the time of `Install` and the ticks of the update loop. -/
structure Attempt where
  construct : Option Thrown
  connect : Option Thrown
  install : Option Thrown
  OnInstall : List Registration
  now : Nat
  ticks : List Tick
  uninstall : Option Thrown
  deriving DecidableEq, Repr

/-- How an attempt ends: a call throws, the help text is printed and `Launch` returns,
the update loop ends and `Uninstall` returns, or the update loop is still turning when
the ticks are used up. -/
inductive Outcome where
  | threw (stage : Stage) (thrown : Thrown)
  | help
  | stopped
  | running
  deriving DecidableEq, Repr

/-- The record of one attempt: how it ended, the calls that returned, in order, and the
service object as it was last, when one was constructed. -/
structure AttemptResult where
  outcome : Outcome
  steps : List Step
  service : Option Service
  deriving DecidableEq, Repr

/-- The statements `while (service->Update()); service->Uninstall();` of `Launch`. -/
def Attempt.updateLoop (a : Attempt) : List Tick → Service → List Step → AttemptResult
  | [], s, steps => { outcome := Outcome.running, steps := steps, service := some s }
  | tick :: later, s, steps =>
      let s := tick.inbound.foldl Service.deliver s
      match tick.thrown with
      | some thrown =>
          { outcome := Outcome.threw Stage.Update thrown, steps := steps, service := some s }
      | none =>
          if s.Update.2 then a.updateLoop later s.Update.1 (steps ++ [Step.Updated true])
          else
            match a.uninstall with
            | some thrown =>
                { outcome := Outcome.threw Stage.Uninstall thrown,
                  steps := steps ++ [Step.Updated false], service := some s.Update.1 }
            | none =>
                { outcome := Outcome.stopped,
                  steps := steps ++ [Step.Updated false, Step.Uninstalled],
                  service := some s.Update.1.Uninstall }

/-- The statements of `Launch` from `service->Connect(...)` on. -/
def Attempt.connectAndRun (a : Attempt) (s : Service) (steps : List Step) : AttemptResult :=
  match a.connect with
  | some thrown =>
      { outcome := Outcome.threw Stage.Connect thrown, steps := steps, service := some s }
  | none =>
      match a.install with
      | some thrown =>
          { outcome := Outcome.threw Stage.Install thrown,
            steps := steps ++ [Step.Connected], service := some s.Connect }
      | none =>
          a.updateLoop a.ticks (s.Connect.Install a.OnInstall a.now)
            (steps ++ [Step.Connected, Step.Installed])

/-- The body of the `try` block of `Launch`: one attempt, from the construction of the
service object. -/
def runAttempt (name : String) (command_line : CommandLine) (a : Attempt) : AttemptResult :=
  match a.construct with
  | some thrown =>
      { outcome := Outcome.threw Stage.Construct thrown, steps := [], service := none }
  | none =>
      match command_line with
      | CommandLine.absent => a.connectAndRun (Service.create name) [Step.Constructed]
      | CommandLine.invalid what =>
          { outcome := Outcome.threw Stage.ParseOptions (Thrown.std_exception what),
            steps := [Step.Constructed], service := some (Service.create name) }
      | CommandLine.options true _ _ =>
          { outcome := Outcome.help, steps := [Step.Constructed, Step.Parsed],
            service := some (Service.create name) }
      | CommandLine.options false _ _ =>
          a.connectAndRun (Service.create name) [Step.Constructed, Step.Parsed]

/-- How a run of `Launch` ends: it returns, a thrown object that is no `std::exception`
leaves it, or it is still at work when the described attempts are used up. -/
inductive Exit where
  | returned
  | propagated (thrown : Thrown)
  | running
  deriving DecidableEq, Repr

/-- The record of a run of `Launch`: the attempts made, in order, and how it ended. -/
structure LaunchRun where
  attempts : List AttemptResult
  exit : Exit
  deriving DecidableEq, Repr

/-- Embeds `Launch`: the do-while loop over attempts. An attempt that throws a
`std::exception` sets `crashed` and the loop goes round again, one second later. -/
def Launch (name : String) (command_line : CommandLine) : List Attempt → LaunchRun
  | [] => { attempts := [], exit := Exit.running }
  | a :: later =>
      match (runAttempt name command_line a).outcome with
      | Outcome.threw _ (Thrown.std_exception _) =>
          { attempts := runAttempt name command_line a ::
              (Launch name command_line later).attempts,
            exit := (Launch name command_line later).exit }
      | Outcome.threw _ Thrown.other =>
          { attempts := [runAttempt name command_line a],
            exit := Exit.propagated Thrown.other }
      | Outcome.help =>
          { attempts := [runAttempt name command_line a], exit := Exit.returned }
      | Outcome.stopped =>
          { attempts := [runAttempt name command_line a], exit := Exit.returned }
      | Outcome.running =>
          { attempts := [runAttempt name command_line a], exit := Exit.running }

/-- An attempt whose result is a failure of the kind `Launch` catches. -/
def AttemptResult.crashed (r : AttemptResult) : Prop :=
  ∃ (stage : Stage) (what : String),
    r.outcome = Outcome.threw stage (Thrown.std_exception what)

/-- An attempt against a server that refuses the connection. -/
def Attempt.refused : Attempt :=
  { construct := none, connect := some (Thrown.std_exception "Connection refused"),
    install := none, OnInstall := TestService.OnInstall, now := 0, ticks := [],
    uninstall := none }

/-- An attempt in which everything works and a `shutdown` command arrives before the
second call of `Update`. -/
def Attempt.clean : Attempt :=
  { construct := none, connect := none, install := none,
    OnInstall := TestService.OnInstall, now := 0,
    ticks :=
      [{ inbound := [], thrown := none },
       { inbound := [Delivery.pmessage "svc/command*" "svc/command/shutdown" "bye"],
         thrown := none }],
    uninstall := none }

/-- An attempt in which the first call of `Update` throws an object that is no
`std::exception`. -/
def Attempt.foreign : Attempt :=
  { construct := none, connect := none, install := none,
    OnInstall := TestService.OnInstall, now := 0,
    ticks := [{ inbound := [], thrown := some Thrown.other }], uninstall := none }

/-! ## The log client -/

namespace Clients

/-- The severities of `LogRecorder::Severity`. -/
inductive Severity where
  | Message
  | Milestone
  | Warning
  | Error
  deriving DecidableEq, Repr

/-- The word `GenerateLogText` prints for a severity. -/
def Severity.text : Severity → String
  | Severity.Message => "Message"
  | Severity.Milestone => "Milestone"
  | Severity.Warning => "Warning"
  | Severity.Error => "Error"

/-- The fields of the `std::tm` returned by `std::localtime` that the log code prints. -/
structure LocalTime where
  tm_mon : Nat
  tm_mday : Nat
  tm_hour : Nat
  tm_min : Nat
  tm_sec : Nat
  deriving DecidableEq, Repr

/-- The fields of `class LogRecorder`; `LogFile` is `none` while the stream is closed and
holds the lines written once it is open, `Console` is what went to `std::cout`. -/
structure LogRecorder where
  LogFilePath : String
  LogFile : Option (List String)
  PrintToConsole : Bool
  Console : List String
  deriving DecidableEq, Repr

namespace LogRecorder

/-- Embeds `LogRecorder::GenerateLogText`; `local_time` is the local time of the call. -/
def GenerateLogText (local_time : LocalTime) (text : String) (severity : Severity)
    (author : String) : String :=
  toString local_time.tm_hour ++ ":" ++ toString local_time.tm_min ++ ":" ++
    toString local_time.tm_sec ++ "|" ++ severity.text ++ "|" ++ author ++ "|" ++ text

/-- Embeds the constructor `LogRecorder::LogRecorder(unit_name)`. -/
def create (local_time : LocalTime) (unit_name : String) : LogRecorder :=
  { LogFilePath :=
      (if unit_name = "" then "" else unit_name ++ " ") ++
        toString (local_time.tm_mon + 1) ++ "-" ++ toString local_time.tm_mday ++ " " ++
        toString local_time.tm_hour ++ ":" ++ toString local_time.tm_min ++ ":" ++
        toString local_time.tm_sec ++ ".log",
    LogFile := none, PrintToConsole := false, Console := [] }

/-- Embeds `LogRecorder::RecordRawText`, for a file that can be opened. -/
def RecordRawText (r : LogRecorder) (text : String) : LogRecorder :=
  let r :=
    if r.LogFile.isNone && !(r.LogFilePath = "") then { r with LogFile := some [] } else r
  let r :=
    match r.LogFile with
    | some lines => { r with LogFile := some (lines ++ [text]) }
    | none => r
  if r.PrintToConsole then { r with Console := r.Console ++ [text] } else r

end LogRecorder

/-- The connection as the log client uses it: `receivers` is what `publish` on the log
channel returns, the number of clients that got the text, and `none` when `publish`
throws; `Published` holds the texts sent. -/
structure LogConnection where
  receivers : Option Nat
  Published : List String
  deriving DecidableEq, Repr

/-- The fields of `class LogClient`; an empty pointer is `none`. -/
structure LogClient where
  Logger : Option LogRecorder
  Connection : Option LogConnection
  Author : String
  PrintToConsole : Bool
  Console : List String
  deriving DecidableEq, Repr

/-- How a call on the log client fails: it goes through an empty pointer, or an
exception leaves it. -/
inductive Fault where
  | null_dereference
  | exception (what : String)
  deriving DecidableEq, Repr

namespace LogClient

/-- Embeds `LogClient::RecordRawText`. -/
def RecordRawText (c : LogClient) (text : String) : Except Fault LogClient :=
  let sent : Except Fault LogClient :=
    match c.Connection with
    | some connection =>
        match connection.receivers with
        | some _ =>
            let link : LogConnection :=
              { connection with Published := connection.Published ++ [text] }
            Except.ok { c with Connection := some link }
        | none => Except.error (Fault.exception "publish")
    | none =>
        match c.Logger with
        | some recorder => Except.ok { c with Logger := some (recorder.RecordRawText text) }
        | none => Except.ok c
  sent.map (fun c => if c.PrintToConsole then { c with Console := c.Console ++ [text] } else c)

/-- Embeds `LogClient::RecordMilestone`. -/
def RecordMilestone (c : LogClient) (local_time : LocalTime) (text : String) :
    Except Fault LogClient :=
  c.RecordRawText (LogRecorder.GenerateLogText local_time text Severity.Milestone c.Author)

/-- Embeds `LogClient::SwitchToOfflineMode`. -/
def SwitchToOfflineMode (c : LogClient) (local_time : LocalTime) (reason : String) :
    Except Fault LogClient :=
  let c := if c.Connection.isSome then { c with Connection := none } else c
  match c.Logger with
  | some _ => Except.ok c
  | none =>
      let recorder := LogRecorder.create local_time c.Author
      let c := { c with Logger := some { recorder with PrintToConsole := c.PrintToConsole } }
      if reason = "" then c.RecordMilestone local_time "Switch to offline log mode."
      else c.RecordMilestone local_time ("Switch to offline log mode, reason: " ++ reason)

/-- Embeds the constructor `LogClient::LogClient(author, connection)`. After the test
`if (!Connection)` the constructor goes on to `Connection->publish(...)`, also when the
pointer is empty; that call is no C++ exception and the `catch` does not see it. -/
def create (local_time : LocalTime) (author : String) (connection : Option LogConnection) :
    Except Fault LogClient :=
  let c : LogClient :=
    { Logger := none, Connection := connection, Author := author, PrintToConsole := false,
      Console := [] }
  let c :=
    if c.Connection.isNone then
      { c with Logger := some (LogRecorder.create local_time c.Author) }
    else c
  match c.Connection with
  | none => Except.error Fault.null_dereference
  | some link =>
      match link.receivers with
      | some n =>
          if n < 1 then
            ({ c with Connection := none }).SwitchToOfflineMode local_time
              "No log service detected."
          else
            let greeted : LogConnection :=
              { link with Published := link.Published ++
                  [LogRecorder.GenerateLogText local_time "Log service client connected."
                    Severity.Message c.Author] }
            Except.ok { c with Connection := some greeted }
      | none =>
          ({ c with Connection := none }).SwitchToOfflineMode local_time
            "No log service detected."

end LogClient

end Clients

/-! ## Heartbeat and repeated registration -/

/-- An installed test service (installed at time 0) whose name client has registered
`svc` on a server that also holds a key `svc`, so that every refresh shows in the
expiry instant of the record. -/
def TestService.shadowedRuntime : Runtime :=
  { service := (Service.create "svc").Install TestService.OnInstall 0,
    NameResolver := Clients.NameClient.shadowed }

/-- One call of `consume()` that delivers a command and returns. -/
def TestService.command : Consumed :=
  { deliveries := [Delivery.pmessage "svc/command*" "svc/command/hello" ""], error := false }

/-- One call of `consume()` that ends in the socket timeout. -/
def TestService.timeout : Consumed :=
  { deliveries := [], error := true }

/-- The name client after `RegisterName(n, a1)` at `t1` and `RegisterName(n, a2)` at
`t2`. -/
def Clients.NameClient.registeredTwice (c : Clients.NameClient) (t1 t2 : Nat)
    (n a1 a2 : String) : Clients.NameClient :=
  (c.RegisterName t1 n a1).RegisterName t2 n a2

/-- One call of `consume()` that hands a single reply to its callback; `failed` tells
whether the call then leaves by throwing `sw::redis::Error`. -/
def Consumed.single (d : Delivery) (failed : Bool) : Consumed :=
  { deliveries := [d], error := failed }

/-! # Theorems -/

/-! ## Traces -/

theorem invocations_append (a b : List Event) :
    invocations (a ++ b) = invocations a ++ invocations b := by
  induction a with
  | nil => rfl
  | cons e rest ih => cases e <;> simp [invocations, ih]

theorem errors_append (a b : List Event) : errors (a ++ b) = errors a ++ errors b := by
  induction a with
  | nil => rfl
  | cons e rest ih => cases e <;> simp [errors, ih]

theorem call_CommandHandlers (h : Callable) (content : String) (s : Service) :
    (h.call content s).CommandHandlers = s.CommandHandlers := by
  cases h <;> rfl

theorem call_MessageHandlers (h : Callable) (content : String) (s : Service) :
    (h.call content s).MessageHandlers = s.MessageHandlers := by
  cases h <;> rfl

theorem call_invocations (h : Callable) (content : String) (s : Service) :
    invocations (h.call content s).Trace = invocations s.Trace ++ [(h, content)] := by
  cases h <;> simp [Callable.call, Service.record, invocations_append, invocations]

theorem call_errors (h : Callable) (content : String) (s : Service) :
    errors (h.call content s).Trace = errors s.Trace := by
  cases h <;> simp [Callable.call, Service.record, errors_append, errors]

/-! ## The command table -/

theorem find_append {β : Type} (m m2 : List (String × β)) (key : String) :
    UnorderedMap.find (m ++ m2) key =
      match UnorderedMap.find m key with
      | some v => some v
      | none => UnorderedMap.find m2 key := by
  induction m with
  | nil => simp [UnorderedMap.find]
  | cons p rest ih =>
    obtain ⟨k, v⟩ := p
    by_cases hk : k = key
    · simp [UnorderedMap.find, hk]
    · simp [UnorderedMap.find, hk, ih]

theorem find_emplace {β : Type} (m : List (String × β)) (k key : String) (v : β) :
    UnorderedMap.find (UnorderedMap.emplace m k v) key =
      match UnorderedMap.find m key with
      | some x => some x
      | none => if k = key then some v else none := by
  unfold UnorderedMap.emplace
  cases hk : UnorderedMap.find m k with
  | some x =>
    cases hkey : UnorderedMap.find m key with
    | some y => simp [hkey]
    | none =>
      have : k ≠ key := by
        intro h; rw [h] at hk; rw [hk] at hkey; cases hkey
      simp [hkey, this]
  | none => simp [find_append, UnorderedMap.find]

theorem find_of_not_mem {β : Type} (m : List (String × β)) (key : String)
    (h : ∀ r ∈ m, r.1 ≠ key) : UnorderedMap.find m key = none := by
  induction m with
  | nil => rfl
  | cons p rest ih =>
    obtain ⟨k, v⟩ := p
    have hk : k ≠ key := h (k, v) (List.mem_cons_self _ _)
    simp only [UnorderedMap.find, hk, if_false]
    exact ih (fun r hr => h r (List.mem_cons_of_mem _ hr))

theorem find_addCommands (regs : List (String × MessageHandler)) (s : Service)
    (key : String) :
    UnorderedMap.find (addCommands regs s).CommandHandlers key =
      match UnorderedMap.find s.CommandHandlers key with
      | some x => some x
      | none => UnorderedMap.find regs key := by
  induction regs generalizing s with
  | nil =>
    simp only [addCommands, List.foldl_nil, UnorderedMap.find]
    cases UnorderedMap.find s.CommandHandlers key <;> rfl
  | cons r rest ih =>
    obtain ⟨k, v⟩ := r
    have step := ih (s.AddCommand k v)
    simp only [addCommands, List.foldl_cons] at step ⊢
    rw [step]
    simp only [Service.AddCommand, find_emplace]
    cases UnorderedMap.find s.CommandHandlers key with
    | some x => rfl
    | none =>
      by_cases hk : k = key
      · simp [hk, UnorderedMap.find]
      · simp [hk, UnorderedMap.find]

theorem addCommands_Trace (regs : List (String × MessageHandler)) (s : Service) :
    (addCommands regs s).Trace = s.Trace := by
  induction regs generalizing s with
  | nil => rfl
  | cons r rest ih =>
    simp only [addCommands, List.foldl_cons] at ih ⊢
    rw [ih]; rfl

/-- C1, as amended. For every command name `C` that the table does not hold, every
sequence of `AddCommand` calls in which the first registration under `C` carries the
non-empty handler `h`, and every payload `P`: `HandleCommand(C, P)` calls `h` once with
`P` and calls no other handler, whatever was registered under `C` afterwards. -/
theorem HandleCommand_invokes_first_registered (s : Service) (C P : String) (h : Callable)
    (before after : List (String × MessageHandler))
    (habsent : UnorderedMap.find s.CommandHandlers C = none)
    (hbefore : ∀ r ∈ before, r.1 ≠ C) :
    invocations
        ((addCommands (before ++ (C, some h) :: after) s).HandleCommand C P).Trace =
      invocations s.Trace ++ [(h, P)] := by
  have hfind :
      UnorderedMap.find (addCommands (before ++ (C, some h) :: after) s).CommandHandlers C =
        some (some h) := by
    rw [find_addCommands, habsent, find_append, find_of_not_mem before C hbefore]
    simp [UnorderedMap.find]
  simp only [Service.HandleCommand, hfind, call_invocations, addCommands_Trace]

/-- C1, amended claim at a concrete input: `"c"` is registered twice after `"a"`, and
the handler of the first registration runs. -/
theorem HandleCommand_invokes_first_registered_witness :
    UnorderedMap.find (Service.create "svc").CommandHandlers "c" = none ∧
    (∀ r ∈ [("a", some (Callable.user 0))], r.1 ≠ "c") ∧
    invocations
        ((addCommands ([("a", some (Callable.user 0))] ++
            ("c", some (Callable.user 1)) :: [("c", some (Callable.user 2))])
          (Service.create "svc")).HandleCommand "c" "p").Trace =
      invocations (Service.create "svc").Trace ++ [(Callable.user 1, "p")] :=
  ⟨by decide, by decide,
    HandleCommand_invokes_first_registered (Service.create "svc") "c" "p" (Callable.user 1)
      [("a", some (Callable.user 0))] [("c", some (Callable.user 2))] (by decide)
      (by decide)⟩

/-- C1, counterexample. After `AddCommand("c", h1)` and `AddCommand("c", h2)` on a new
service, `HandleCommand("c", "p")` calls `h1`, the handler registered first, and not
`h2`, the handler registered last. -/
theorem HandleCommand_last_registered_not_invoked :
    invocations
        ((((Service.create "svc").AddCommand "c" (some (Callable.user 1))).AddCommand "c"
          (some (Callable.user 2))).HandleCommand "c" "p").Trace = [(Callable.user 1, "p")] ∧
    invocations
        ((((Service.create "svc").AddCommand "c" (some (Callable.user 1))).AddCommand "c"
          (some (Callable.user 2))).HandleCommand "c" "p").Trace ≠ [(Callable.user 2, "p")] := by
  decide

/-! ## The topic table -/

theorem handlersOn_AddSubscription (s : Service) (T : String) (h : MessageHandler) :
    handlersOn (s.AddSubscription T h) T = handlersOn s T ++ [h] := by
  simp [handlersOn, Service.AddSubscription, Service.record, UnorderedMultimap.emplace,
    UnorderedMultimap.equal_range, List.filter_append]

theorem handlersOn_addSubscriptions (T : String) (hs : List MessageHandler) (s : Service) :
    handlersOn (addSubscriptions T hs s) T = handlersOn s T ++ hs := by
  induction hs generalizing s with
  | nil => simp [addSubscriptions]
  | cons h rest ih =>
    have step := ih (s.AddSubscription T h)
    simp only [addSubscriptions, List.foldl_cons] at step ⊢
    rw [step, handlersOn_AddSubscription]
    simp

theorem addSubscriptions_invocations (T : String) (hs : List MessageHandler) (s : Service) :
    invocations (addSubscriptions T hs s).Trace = invocations s.Trace := by
  induction hs generalizing s with
  | nil => rfl
  | cons h rest ih =>
    have step := ih (s.AddSubscription T h)
    simp only [addSubscriptions, List.foldl_cons] at step ⊢
    rw [step]
    simp [Service.AddSubscription, Service.record, invocations_append, invocations]

theorem addSubscriptions_errors (T : String) (hs : List MessageHandler) (s : Service) :
    errors (addSubscriptions T hs s).Trace = errors s.Trace := by
  induction hs generalizing s with
  | nil => rfl
  | cons h rest ih =>
    have step := ih (s.AddSubscription T h)
    simp only [addSubscriptions, List.foldl_cons] at step ⊢
    rw [step]
    simp [Service.AddSubscription, Service.record, errors_append, errors]

/-- Running the handlers of a range: every non-empty one is called once, in order, and
no error line is written. -/
theorem run_range (P : String) (range : List (String × MessageHandler)) (t : Service) :
    invocations
        (range.foldl
          (fun t pair =>
            match pair.2 with
            | some h => h.call P t
            | none => t) t).Trace =
      invocations t.Trace ++ (callables (range.map (fun p => p.2))).map (fun h => (h, P)) ∧
    errors
        (range.foldl
          (fun t pair =>
            match pair.2 with
            | some h => h.call P t
            | none => t) t).Trace = errors t.Trace := by
  induction range generalizing t with
  | nil => simp [callables]
  | cons p rest ih =>
    obtain ⟨k, v⟩ := p
    cases v with
    | none =>
      have step := ih t
      simpa [callables] using step
    | some h =>
      have step := ih (h.call P t)
      simp only [List.foldl_cons]
      refine ⟨?_, ?_⟩
      · rw [step.1, call_invocations]
        simp [callables]
      · rw [step.2, call_errors]

/-- What `HandleMessage` does on any table: it calls the non-empty handlers of the
channel, and writes one error line exactly when the channel has no entry. -/
theorem HandleMessage_trace (s : Service) (T P : String) :
    invocations (s.HandleMessage T P).Trace =
      invocations s.Trace ++ (callables (handlersOn s T)).map (fun h => (h, P)) ∧
    errors (s.HandleMessage T P).Trace =
      errors s.Trace ++
        (if handlersOn s T = [] then ["Unknown message received: " ++ T] else []) := by
  unfold Service.HandleMessage handlersOn
  cases hr : UnorderedMultimap.equal_range s.MessageHandlers T with
  | nil =>
    simp [Service.record, invocations_append, errors_append, invocations, errors, callables]
  | cons p rest =>
    have step := run_range P (p :: rest) s
    simp only [step.1, step.2]
    simp

/-- C2, as amended. For every topic `T`, payload `P` and handlers `hs` registered on `T`
through `AddSubscription`: `HandleMessage(T, P)` calls every non-empty handler
registered on `T` once with `P`, in some order, and no other handler; it writes no
error line when `T` has an entry, and exactly one when `T` has none. -/
theorem HandleMessage_invokes_callable_handlers (s : Service) (T P : String)
    (hs : List MessageHandler) :
    (∃ calls : List (Callable × String),
      invocations ((addSubscriptions T hs s).HandleMessage T P).Trace =
        invocations s.Trace ++ calls ∧
      calls.Perm ((callables (handlersOn s T ++ hs)).map (fun h => (h, P)))) ∧
    errors ((addSubscriptions T hs s).HandleMessage T P).Trace =
      errors s.Trace ++
        (if handlersOn s T ++ hs = [] then ["Unknown message received: " ++ T] else []) := by
  have key := HandleMessage_trace (addSubscriptions T hs s) T P
  rw [handlersOn_addSubscriptions, addSubscriptions_invocations,
    addSubscriptions_errors] at key
  exact ⟨⟨_, key.1, List.Perm.refl _⟩, key.2⟩

/-- C2, counterexample. With the empty function object subscribed to `"alerts"`,
`HandleMessage("alerts", "fire")` calls nothing and writes no error line: the handler
registered on the topic is not invoked, and no diagnostic is logged either. -/
theorem HandleMessage_null_handler_silent :
    handlersOn ((Service.create "svc").AddSubscription "alerts" none) "alerts" = [none] ∧
    invocations
      (((Service.create "svc").AddSubscription "alerts" none).HandleMessage "alerts"
        "fire").Trace = [] ∧
    errors
      (((Service.create "svc").AddSubscription "alerts" none).HandleMessage "alerts"
        "fire").Trace = [] := by
  decide

/-! ## The command channel -/

theorem lastIndexOf_eq_none (c : Char) (t : List Char) (h : c ∉ t) :
    lastIndexOf c t = none := by
  induction t with
  | nil => rfl
  | cons x rest ih =>
    have hx : x ≠ c := fun e => h (by simp [e])
    have hrest : c ∉ rest := fun m => h (List.mem_cons_of_mem _ m)
    simp [lastIndexOf, ih hrest, hx]

theorem lastIndexOf_append_cons (c : Char) (p t : List Char) (h : c ∉ t) :
    lastIndexOf c (p ++ c :: t) = some p.length := by
  induction p with
  | nil => simp [lastIndexOf, lastIndexOf_eq_none c t h]
  | cons x rest ih => simp [lastIndexOf, ih]

theorem drop_length_succ_append_cons (c : Char) (p t : List Char) :
    (p ++ c :: t).drop (p.length + 1) = t := by
  induction p with
  | nil => rfl
  | cons x rest ih => simp [ih]

theorem lastIndexOf_of_mem (c : Char) (l : List Char) (h : c ∈ l) :
    ∃ i, lastIndexOf c l = some i := by
  induction l with
  | nil => cases h
  | cons x rest ih =>
    cases hr : lastIndexOf c rest with
    | some j => exact ⟨j + 1, by simp [lastIndexOf, hr]⟩
    | none =>
      rcases List.mem_cons.mp h with e | m
      · subst e
        exact ⟨0, by simp [lastIndexOf, hr]⟩
      · obtain ⟨i, hi⟩ := ih m
        rw [hr] at hi
        cases hi

theorem lastIndexOf_some (c : Char) (l : List Char) (i : Nat)
    (h : lastIndexOf c l = some i) :
    ∃ p t : List Char, l = p ++ c :: t ∧ p.length = i ∧ c ∉ t := by
  induction l generalizing i with
  | nil => simp [lastIndexOf] at h
  | cons x rest ih =>
    cases hr : lastIndexOf c rest with
    | some j =>
      obtain ⟨p, t, hl, hp, ht⟩ := ih j hr
      simp only [lastIndexOf, hr, Option.some.injEq] at h
      exact ⟨x :: p, t, by simp [hl], by simp [hp, h], ht⟩
    | none =>
      simp only [lastIndexOf, hr] at h
      by_cases hx : x = c
      · simp only [hx, if_true, Option.some.injEq] at h
        refine ⟨[], rest, by simp [hx], by simp [h], ?_⟩
        intro hm
        obtain ⟨j, hj⟩ := lastIndexOf_of_mem c rest hm
        rw [hr] at hj
        cases hj
      · simp [hx] at h

/-- C5. For every channel name of at least 4 characters that contains `/` and every
message `M`, the channel is `head ++ "/" ++ suffix` with no `/` in `suffix`, and the
pattern-message callback does exactly what one call of `HandleCommand` does:
`HandleCommand(M, "")` when `suffix` is `"command"`, `HandleCommand(suffix, M)`
otherwise. -/
theorem on_pmessage_dispatches_suffix (s : Service) (pattern channel M : String)
    (hlen : 4 ≤ channel.length) (hslash : '/' ∈ channel.data) :
    ∃ head suffix : String,
      channel = head ++ "/" ++ suffix ∧ '/' ∉ suffix.data ∧
      s.on_pmessage pattern channel M =
        if suffix = "command" then s.HandleCommand M "" else s.HandleCommand suffix M := by
  obtain ⟨i, hi⟩ := lastIndexOf_of_mem '/' channel.data hslash
  obtain ⟨p, t, hl, hp, ht⟩ := lastIndexOf_some '/' channel.data i hi
  refine ⟨String.mk p, String.mk t, ?_, ht, ?_⟩
  · apply String.ext
    simp [hl]
  · have hsub : substr channel (i + 1) = String.mk t := by
      simp [substr, hl, ← hp]
    have hnot : ¬ channel.length < 4 := by omega
    simp only [Service.on_pmessage, hnot, if_false, find_last_of, hi, hsub]

/-- C5 at a concrete input: the channel `echo/command/ping`. -/
theorem on_pmessage_dispatches_suffix_witness :
    4 ≤ "echo/command/ping".length ∧ '/' ∈ "echo/command/ping".data ∧
    ∃ head suffix : String,
      "echo/command/ping" = head ++ "/" ++ suffix ∧ '/' ∉ suffix.data ∧
      (Service.create "echo").on_pmessage "echo/command*" "echo/command/ping" "" =
        if suffix = "command" then (Service.create "echo").HandleCommand "" ""
        else (Service.create "echo").HandleCommand suffix "" :=
  ⟨by decide, by decide,
    on_pmessage_dispatches_suffix (Service.create "echo") "echo/command*"
      "echo/command/ping" "" (by decide) (by decide)⟩

/-- C6, as amended. For every receiving service, every command name `N` that contains
no `/`, is not the word `command` and is registered on the receiver with the non-empty
handler `h`, and every content `P`: `SendServiceCommand(S, N, P)` publishes `P` on
`S + "/command/" + N`, and the receiver's pattern-message callback, given that event,
calls `h` once with `P`, calls no other handler and writes no error line. -/
theorem SendServiceCommand_reaches_handler (sender receiver : Service) (N P : String)
    (h : Callable) (hslash : '/' ∉ N.data) (hname : N ≠ "command")
    (hreg : UnorderedMap.find receiver.CommandHandlers N = some (some h)) :
    sender.SendServiceCommand receiver.Name N P =
      sender.record (Event.Publish (receiver.Name ++ "/command/" ++ N) P) ∧
    invocations
        (receiver.on_pmessage receiver.commandPattern
          (receiver.Name ++ "/command/" ++ N) P).Trace =
      invocations receiver.Trace ++ [(h, P)] ∧
    errors
        (receiver.on_pmessage receiver.commandPattern
          (receiver.Name ++ "/command/" ++ N) P).Trace =
      errors receiver.Trace := by
  have hdata : (receiver.Name ++ "/command/" ++ N).data =
      (receiver.Name.data ++ "/command".data) ++ '/' :: N.data := by
    simp [String.data_append]
  have hidx : find_last_of (receiver.Name ++ "/command/" ++ N) '/' =
      some (receiver.Name.data ++ "/command".data).length := by
    unfold find_last_of
    rw [hdata]
    exact lastIndexOf_append_cons _ _ _ hslash
  have hsub : substr (receiver.Name ++ "/command/" ++ N)
      ((receiver.Name.data ++ "/command".data).length + 1) = N := by
    unfold substr
    rw [hdata, drop_length_succ_append_cons]
  have hlen : ¬ (receiver.Name ++ "/command/" ++ N).length < 4 := by
    have h9 : "/command/".length = 9 := by decide
    simp only [String.length_append, h9]
    omega
  refine ⟨rfl, ?_, ?_⟩
  · simp only [Service.on_pmessage, hlen, if_false, hidx, hsub, hname,
      Service.HandleCommand, hreg, call_invocations]
  · simp only [Service.on_pmessage, hlen, if_false, hidx, hsub, hname,
      Service.HandleCommand, hreg, call_errors]

/-- C6, amended claim at a concrete input: the command `ping` sent to the service
`echo` with empty content. -/
theorem SendServiceCommand_reaches_handler_witness :
    '/' ∉ "ping".data ∧ "ping" ≠ "command" ∧
    UnorderedMap.find
      ((Service.create "echo").AddCommand "ping" (some (Callable.user 7))).CommandHandlers
      "ping" = some (some (Callable.user 7)) ∧
    (Service.create "client").SendServiceCommand
        ((Service.create "echo").AddCommand "ping" (some (Callable.user 7))).Name "ping" "" =
      (Service.create "client").record
        (Event.Publish
          (((Service.create "echo").AddCommand "ping" (some (Callable.user 7))).Name ++
            "/command/" ++ "ping") "") ∧
    invocations
        (((Service.create "echo").AddCommand "ping" (some (Callable.user 7))).on_pmessage
          ((Service.create "echo").AddCommand "ping" (some (Callable.user 7))).commandPattern
          (((Service.create "echo").AddCommand "ping" (some (Callable.user 7))).Name ++
            "/command/" ++ "ping") "").Trace =
      invocations ((Service.create "echo").AddCommand "ping"
        (some (Callable.user 7))).Trace ++ [(Callable.user 7, "")] ∧
    errors
        (((Service.create "echo").AddCommand "ping" (some (Callable.user 7))).on_pmessage
          ((Service.create "echo").AddCommand "ping" (some (Callable.user 7))).commandPattern
          (((Service.create "echo").AddCommand "ping" (some (Callable.user 7))).Name ++
            "/command/" ++ "ping") "").Trace =
      errors ((Service.create "echo").AddCommand "ping" (some (Callable.user 7))).Trace :=
  ⟨by decide, by decide, by decide,
    SendServiceCommand_reaches_handler (Service.create "client")
      ((Service.create "echo").AddCommand "ping" (some (Callable.user 7))) "ping" ""
      (Callable.user 7) (by decide) (by decide) (by decide)⟩

/-- C6, counterexample. On the service `echo` the command `a/b` is registered with a
handler; `SendServiceCommand("echo", "a/b", "x")` publishes on `echo/command/a/b`, and
the callback of `echo` looks up `b`: no handler runs and an error line is written. The
command named `command` fares no better: the callback takes the content `x` as the
command name. -/
theorem SendServiceCommand_misrouted :
    UnorderedMap.find echoService.CommandHandlers "a/b" = some (some (Callable.user 1)) ∧
    ((Service.create "client").SendServiceCommand "echo" "a/b" "x").Trace =
      [Event.Publish "echo/command/a/b" "x"] ∧
    (echoService.on_pmessage "echo/command*" "echo/command/a/b" "x").Trace =
      [Event.RecordError "Unknown command received: b"] ∧
    UnorderedMap.find echoService.CommandHandlers "command" =
      some (some (Callable.user 2)) ∧
    ((Service.create "client").SendServiceCommand "echo" "command" "x").Trace =
      [Event.Publish "echo/command/command" "x"] ∧
    (echoService.on_pmessage "echo/command*" "echo/command/command" "x").Trace =
      [Event.RecordError "Unknown command received: x"] := by
  decide

/-! ## The run loop -/

/-- C7. For every service state, `Update()` calls `OnUpdate` once when `Enable` is true
and not at all when it is false, returns the value of `LifeFlag`, and leaves `Enable`,
`LifeFlag` and both handler tables as they were. -/
theorem Update_gated_by_Enable (s : Service) :
    s.Update.1.Trace =
      (if s.Enable then s.Trace ++ [Event.Hook Hook.OnUpdate] else s.Trace) ∧
    s.Update.2 = s.LifeFlag ∧
    s.Update.2 = s.Update.1.LifeFlag ∧
    s.Update.1.Enable = s.Enable ∧
    s.Update.1.LifeFlag = s.LifeFlag ∧
    s.Update.1.CommandHandlers = s.CommandHandlers ∧
    s.Update.1.MessageHandlers = s.MessageHandlers := by
  cases he : s.Enable <;>
    simp [Service.Update, Service.OnUpdate, Service.record, he]

theorem Update_returns_LifeFlag (s : Service) : s.Update.2 = s.LifeFlag := by
  cases he : s.Enable <;> simp [Service.Update, Service.OnUpdate, Service.record, he]

theorem shutdown_mem_call (h : Callable) (content : String) (s : Service) :
    ((h.call content s).LifeFlag = false ↔
      Callable.shutdown ∈ (invocations (h.call content s).Trace).map Prod.fst) ↔
    (h = Callable.shutdown ∨
      (s.LifeFlag = false ↔ Callable.shutdown ∈ (invocations s.Trace).map Prod.fst)) := by
  rw [call_invocations]
  cases h <;> simp [Callable.call, Service.record]

theorem Registration_apply_LifeFlag (s : Service) (r : Registration) :
    (r.apply s).LifeFlag = s.LifeFlag ∧
    invocations (r.apply s).Trace = invocations s.Trace := by
  cases r <;>
    simp [Registration.apply, Service.AddCommand, Service.RemoveCommand,
      Service.AddSubscription, Service.RemoveSubscription, Service.record,
      invocations_append, invocations]

theorem OnInstall_LifeFlag (body : List Registration) (s : Service) :
    (body.foldl Registration.apply s).LifeFlag = s.LifeFlag ∧
    invocations (body.foldl Registration.apply s).Trace = invocations s.Trace := by
  induction body generalizing s with
  | nil => exact ⟨rfl, rfl⟩
  | cons r rest ih =>
    have step := ih (r.apply s)
    have one := Registration_apply_LifeFlag s r
    simp only [List.foldl_cons]
    exact ⟨step.1.trans one.1, step.2.trans one.2⟩

theorem Install_LifeFlag (s : Service) (body : List Registration) (now : Nat) :
    (s.Install body now).LifeFlag = s.LifeFlag ∧
    invocations (s.Install body now).Trace = invocations s.Trace := by
  simp only [Service.Install, Service.OnInstall]
  refine ⟨(OnInstall_LifeFlag body _).1.trans ?_, (OnInstall_LifeFlag body _).2.trans ?_⟩
  · simp [Service.record, Service.AddCommand]
  · simp [Service.record, Service.AddCommand, invocations_append, invocations]

theorem HandleCommand_shutdown_invariant (s : Service) (name content : String)
    (inv : s.LifeFlag = false ↔ Callable.shutdown ∈ (invocations s.Trace).map Prod.fst) :
    (s.HandleCommand name content).LifeFlag = false ↔
      Callable.shutdown ∈ (invocations (s.HandleCommand name content).Trace).map Prod.fst := by
  unfold Service.HandleCommand
  cases hf : UnorderedMap.find s.CommandHandlers name with
  | none => simpa [Service.record, invocations_append, invocations] using inv
  | some v =>
    cases v with
    | none => simpa [Service.record, invocations_append, invocations] using inv
    | some h => exact (shutdown_mem_call h content s).mpr (Or.inr inv)

theorem Operation_shutdown_invariant (s : Service) (op : Operation)
    (inv : s.LifeFlag = false ↔ Callable.shutdown ∈ (invocations s.Trace).map Prod.fst) :
    (op.apply s).LifeFlag = false ↔
      Callable.shutdown ∈ (invocations (op.apply s).Trace).map Prod.fst := by
  cases op with
  | Install body now =>
    have step := Install_LifeFlag s body now
    simp only [Operation.apply, step.1, step.2]
    exact inv
  | Uninstall =>
    simpa [Operation.apply, Service.Uninstall, Service.OnUninstall, Service.record,
      invocations_append, invocations] using inv
  | Update =>
    cases he : s.Enable <;>
      simpa [Operation.apply, Service.Update, Service.OnUpdate, Service.record, he,
        invocations_append, invocations] using inv
  | Command name content => exact HandleCommand_shutdown_invariant s name content inv

theorem runOperations_shutdown_invariant (ops : List Operation) (s : Service)
    (inv : s.LifeFlag = false ↔ Callable.shutdown ∈ (invocations s.Trace).map Prod.fst) :
    (runOperations ops s).LifeFlag = false ↔
      Callable.shutdown ∈ (invocations (runOperations ops s).Trace).map Prod.fst := by
  induction ops generalizing s with
  | nil => exact inv
  | cons op rest ih => exact ih (op.apply s) (Operation_shutdown_invariant s op inv)

theorem call_LifeFlag_false (h : Callable) (content : String) (s : Service)
    (hs : s.LifeFlag = false) : (h.call content s).LifeFlag = false := by
  cases h <;> simp [Callable.call, Service.record, hs]

theorem Operation_LifeFlag_false (s : Service) (op : Operation) (hs : s.LifeFlag = false) :
    (op.apply s).LifeFlag = false := by
  cases op with
  | Install body now => rw [Operation.apply, (Install_LifeFlag s body now).1]; exact hs
  | Uninstall => simpa [Operation.apply, Service.Uninstall, Service.OnUninstall,
      Service.record] using hs
  | Update =>
    cases he : s.Enable <;>
      simpa [Operation.apply, Service.Update, Service.OnUpdate, Service.record, he] using hs
  | Command name content =>
    simp only [Operation.apply, Service.HandleCommand]
    cases hf : UnorderedMap.find s.CommandHandlers name with
    | none => simpa [Service.record] using hs
    | some v =>
      cases v with
      | none => simpa [Service.record] using hs
      | some h => exact call_LifeFlag_false h content s hs

theorem runOperations_LifeFlag_false (ops : List Operation) (s : Service)
    (hs : s.LifeFlag = false) : (runOperations ops s).LifeFlag = false := by
  induction ops generalizing s with
  | nil => exact hs
  | cons op rest ih => exact ih (op.apply s) (Operation_LifeFlag_false s op hs)

theorem runOperations_append (ops later : List Operation) (s : Service) :
    runOperations (ops ++ later) s = runOperations later (runOperations ops s) := by
  simp [runOperations, List.foldl_append]

/-- C8. Starting from a new service and after every sequence of `Install`, `Uninstall`,
`Update` and handled commands, `Update()` returns false exactly when the built-in
shutdown handler has been called earlier in the sequence; and once `Update()` returns
false it returns false after every continuation of the sequence. -/
theorem Update_false_iff_shutdown_invoked (name : String) (ops : List Operation) :
    ((runOperations ops (Service.create name)).Update.2 = false ↔
      Callable.shutdown ∈
        (invocations (runOperations ops (Service.create name)).Trace).map Prod.fst) ∧
    ∀ later : List Operation,
      (runOperations ops (Service.create name)).Update.2 = false →
      (runOperations (ops ++ later) (Service.create name)).Update.2 = false := by
  have hret : ∀ t : Service, t.Update.2 = t.LifeFlag := Update_returns_LifeFlag
  refine ⟨?_, ?_⟩
  · rw [hret]
    exact runOperations_shutdown_invariant ops (Service.create name)
      (by simp [Service.create, invocations])
  · intro later hfalse
    rw [hret] at hfalse ⊢
    rw [runOperations_append]
    exact runOperations_LifeFlag_false later _ hfalse

/-- C8 at a concrete input: a test service that handled `shutdown` reports false, and
still does after a resume command, a second `Install` and another update. -/
theorem Update_false_iff_shutdown_invoked_witness :
    (runOperations shutdownRun (Service.create "svc")).Update.2 = false ∧
    (runOperations (shutdownRun ++ afterShutdown) (Service.create "svc")).Update.2 = false :=
  ⟨by decide,
    (Update_false_iff_shutdown_invoked "svc" shutdownRun).2 afterShutdown (by decide)⟩

/-! ## Pause and resume -/

theorem find_erase {β : Type} (m : List (String × β)) (k key : String) :
    UnorderedMap.find (UnorderedMap.erase m k) key =
      if k = key then none else UnorderedMap.find m key := by
  unfold UnorderedMap.erase
  induction m with
  | nil => simp [UnorderedMap.find]
  | cons p rest ih =>
    obtain ⟨a, v⟩ := p
    rw [List.filter_cons]
    by_cases hak : a = k
    · rw [if_neg (by simp [hak]), ih]
      by_cases hkey : k = key
      · simp [hkey]
      · simp [hkey, UnorderedMap.find, hak]
    · rw [if_pos (by simp [hak])]
      by_cases hkey : a = key
      · have hne : ¬ k = key := fun e => hak (hkey.trans e.symm)
        simp [UnorderedMap.find, hkey, hne]
      · simp only [UnorderedMap.find, hkey, if_false]
        exact ih

theorem Registration_apply_find (s : Service) (r : Registration) (key : String)
    (v : MessageHandler) (hr : r ≠ Registration.RemoveCommand key)
    (hf : UnorderedMap.find s.CommandHandlers key = some v) :
    UnorderedMap.find (r.apply s).CommandHandlers key = some v := by
  cases r with
  | AddCommand name handler =>
    simp [Registration.apply, Service.AddCommand, find_emplace, hf]
  | RemoveCommand name =>
    have hne : ¬ name = key := fun e => hr (by rw [e])
    simp [Registration.apply, Service.RemoveCommand, find_erase, hne, hf]
  | AddSubscription channel_name handler =>
    simpa [Registration.apply, Service.AddSubscription, Service.record] using hf
  | RemoveSubscription channel_name =>
    simpa [Registration.apply, Service.RemoveSubscription, Service.record] using hf

theorem OnInstall_find (body : List Registration) (s : Service) (key : String)
    (v : MessageHandler) (hb : Registration.RemoveCommand key ∉ body)
    (hf : UnorderedMap.find s.CommandHandlers key = some v) :
    UnorderedMap.find (body.foldl Registration.apply s).CommandHandlers key = some v := by
  induction body generalizing s with
  | nil => exact hf
  | cons r rest ih =>
    have hr : r ≠ Registration.RemoveCommand key := fun e => hb (by simp [e])
    have hrest : Registration.RemoveCommand key ∉ rest :=
      fun m => hb (List.mem_cons_of_mem _ m)
    exact ih (r.apply s) hrest (Registration_apply_find s r key v hr hf)

theorem Install_find_pause_resume (s : Service) (body : List Registration) (now : Nat)
    (hbody : keepsPauseResume body) :
    UnorderedMap.find (s.Install body now).CommandHandlers "pause" =
      some (some Callable.pause) ∧
    UnorderedMap.find (s.Install body now).CommandHandlers "resume" =
      some (some Callable.resume) := by
  simp only [Service.Install, Service.OnInstall]
  refine ⟨OnInstall_find body _ "pause" _ hbody.1 ?_,
    OnInstall_find body _ "resume" _ hbody.2 ?_⟩
  · simp [Service.record, Service.AddCommand, find_emplace, UnorderedMap.find]
  · simp [Service.record, Service.AddCommand, find_emplace, UnorderedMap.find]

theorem updateTimes_disabled (k : Nat) (s : Service) (he : s.Enable = false) :
    updateTimes k s = s := by
  induction k with
  | zero => rfl
  | succ n ih =>
    have hu : s.Update.1 = s := by simp [Service.Update, he]
    simp only [updateTimes, hu, ih]

theorem pausedService_eq (s0 : Service) (body : List Registration) (now : Nat)
    (P : String) (hbody : keepsPauseResume body) :
    pausedService s0 body now P = Callable.pause.call P (s0.Install body now) := by
  simp only [pausedService, Service.HandleCommand,
    (Install_find_pause_resume s0 body now hbody).1]

theorem resumedService_eq (s0 : Service) (body : List Registration) (now : Nat)
    (P : String) (k : Nat) (R : String) (hbody : keepsPauseResume body) :
    resumedService s0 body now P k R =
      Callable.resume.call R (Callable.pause.call P (s0.Install body now)) := by
  have hp := pausedService_eq s0 body now P hbody
  have hdis : (pausedService s0 body now P).Enable = false := by
    rw [hp]; rfl
  have hfind : UnorderedMap.find (pausedService s0 body now P).CommandHandlers "resume" =
      some (some Callable.resume) := by
    rw [hp, call_CommandHandlers]
    exact (Install_find_pause_resume s0 body now hbody).2
  simp only [resumedService, updateTimes_disabled k _ hdis, Service.HandleCommand, hfind]
  rw [hp]

/-- C9. After `Install` (with an `OnInstall` body that does not remove the `pause` and
`resume` entries), for every payload: once `pause` is handled, any number of calls of
`Update()` leave the service as it is, so `OnUpdate` is not called; once `resume` is
then handled, `Update()` calls `OnUpdate` again, with no second `Install`; and neither
command changes the command table, the topic table or the value `Update()` returns. -/
theorem pause_resume_gate_OnUpdate (s0 : Service) (body : List Registration) (now : Nat)
    (P R : String) (k : Nat) (hbody : keepsPauseResume body) :
    updateTimes k (pausedService s0 body now P) = pausedService s0 body now P ∧
    (pausedService s0 body now P).Update.1.Trace = (pausedService s0 body now P).Trace ∧
    (resumedService s0 body now P k R).Update.1.Trace =
      (resumedService s0 body now P k R).Trace ++ [Event.Hook Hook.OnUpdate] ∧
    (pausedService s0 body now P).CommandHandlers = (s0.Install body now).CommandHandlers ∧
    (pausedService s0 body now P).MessageHandlers = (s0.Install body now).MessageHandlers ∧
    (pausedService s0 body now P).Update.2 = (s0.Install body now).Update.2 ∧
    (resumedService s0 body now P k R).CommandHandlers =
      (s0.Install body now).CommandHandlers ∧
    (resumedService s0 body now P k R).MessageHandlers =
      (s0.Install body now).MessageHandlers ∧
    (resumedService s0 body now P k R).Update.2 = (s0.Install body now).Update.2 := by
  have hp := pausedService_eq s0 body now P hbody
  have hr := resumedService_eq s0 body now P k R hbody
  have hdis : (pausedService s0 body now P).Enable = false := by
    rw [hp]; rfl
  have hen : (resumedService s0 body now P k R).Enable = true := by
    rw [hr]; rfl
  refine ⟨updateTimes_disabled k _ hdis, ?_, ?_, ?_, ?_, ?_, ?_, ?_, ?_⟩
  · simp [Service.Update, hdis]
  · simp [Service.Update, hen, Service.OnUpdate, Service.record]
  · rw [hp, call_CommandHandlers]
  · rw [hp, call_MessageHandlers]
  · rw [Update_returns_LifeFlag, Update_returns_LifeFlag, hp]; rfl
  · rw [hr, call_CommandHandlers, call_CommandHandlers]
  · rw [hr, call_MessageHandlers, call_MessageHandlers]
  · rw [Update_returns_LifeFlag, Update_returns_LifeFlag, hr]; rfl

/-- C9 at a concrete input: the test service, paused, updated three times, resumed. -/
theorem pause_resume_gate_OnUpdate_witness :
    keepsPauseResume TestService.OnInstall ∧
    updateTimes 3 (pausedService (Service.create "svc") TestService.OnInstall 0 "p") =
      pausedService (Service.create "svc") TestService.OnInstall 0 "p" ∧
    (resumedService (Service.create "svc") TestService.OnInstall 0 "p" 3 "r").Update.1.Trace =
      (resumedService (Service.create "svc") TestService.OnInstall 0 "p" 3 "r").Trace ++
        [Event.Hook Hook.OnUpdate] :=
  ⟨by decide,
    (pause_resume_gate_OnUpdate (Service.create "svc") TestService.OnInstall 0 "p" "r" 3
      (by decide)).1,
    (pause_resume_gate_OnUpdate (Service.create "svc") TestService.OnInstall 0 "p" "r" 3
      (by decide)).2.2.1⟩

/-! ## The name client -/

namespace Clients

theorem names_key_ne (name : String) : "names/" ++ name ≠ name := by
  intro h
  have hl := congrArg String.length h
  have h6 : "names/".length = 6 := by decide
  simp only [String.length_append, h6] at hl
  omega

theorem entry_SET_other (db : Redis) (now t : Nat) (k key value : String)
    (ttl : Option Nat) (hne : k ≠ key) :
    Redis.entry (Redis.SET db t k value ttl) now key = Redis.entry db now key := by
  simp [Redis.entry, Redis.SET, UnorderedMap.find, find_erase, hne]

/-- Registering a name never changes what `QueryAddress` answers for that name: the
record is written under `"names/" + name`, and the query reads the key `name`. -/
theorem QueryAddress_RegisterName (c : NameClient) (now : Nat) (name address : String) :
    (c.RegisterName now name address).QueryAddress now name = c.QueryAddress now name := by
  simp [NameClient.QueryAddress, NameClient.RegisterName, Redis.GET,
    entry_SET_other _ _ _ _ _ _ _ (names_key_ne name)]

/-- Registering a name never changes what `IsNameValid` answers for that name. -/
theorem IsNameValid_RegisterName (c : NameClient) (now : Nat) (name address : String) :
    (c.RegisterName now name address).IsNameValid now name = c.IsNameValid now name := by
  simp [NameClient.IsNameValid, NameClient.RegisterName, Redis.EXISTS,
    entry_SET_other _ _ _ _ _ _ _ (names_key_ne name)]

/-- C3, the code at the failing input. On an empty server `RegisterName("svc", "addr")`
writes the record `names/svc`, and `QueryAddress("svc")` at the same instant reads the
key `svc` and answers the empty string. -/
theorem QueryAddress_after_RegisterName_is_empty :
    Redis.GET NameClient.registered.Connection 0 "names/svc" = some "addr" ∧
    NameClient.registered.QueryAddress 0 "svc" = "" := by
  decide

/-- C4, the code at the failing input. Right after `RegisterName("svc", "addr")` the
record `names/svc` exists and `IsNameValid("svc")` answers false; and with a key `svc`
on the server and no presence record, `IsNameValid("svc")` answers true. -/
theorem IsNameValid_after_RegisterName_is_false :
    Redis.EXISTS NameClient.registered.Connection 0 "names/svc" = true ∧
    NameClient.registered.IsNameValid 0 "svc" = false ∧
    Redis.EXISTS [("svc", { value := "x", expire_at := none })] 0 "names/svc" = false ∧
    NameClient.IsNameValid
      { Connection := [("svc", { value := "x", expire_at := none })], Names := [] } 0
      "svc" = true := by
  decide

/-- Whenever the server holds no key equal to the bare name, `UpdateName` leaves the
presence record with the given address and no expiry: it is there at every later
instant `t`. -/
theorem UpdateName_without_bare_key (c : NameClient) (now t : Nat) (name address : String)
    (h : Redis.EXISTS c.Connection now name = false) :
    Redis.entry (c.UpdateName now name address).Connection t ("names/" ++ name) =
      some { value := address, expire_at := none } := by
  simp [NameClient.UpdateName, h, Redis.SET, Redis.entry, UnorderedMap.find, Redis.alive]

/-- C10, the code at the failing input. One second after `RegisterName("svc", "addr")`
the record `names/svc` lapses at 3000 ms; `Update()` then rewrites it with no time to
live at all, and the record is still there long after the last refresh. -/
theorem Update_leaves_record_without_expiry :
    NameClient.registered.Names = [("svc", "addr")] ∧
    NameClient.registered.Connection =
      [("names/svc", { value := "addr", expire_at := some 3000 })] ∧
    (NameClient.registered.Update 1000).Connection =
      [("names/svc", { value := "addr", expire_at := none })] ∧
    Redis.EXISTS (NameClient.registered.Update 1000).Connection 1000000 "names/svc" =
      true := by
  decide

end Clients

/-! ## Removing subscriptions and missing routes -/

theorem equal_range_erase_same {β : Type} (m : List (String × β)) (key : String) :
    UnorderedMultimap.equal_range (UnorderedMultimap.erase m key) key = [] := by
  simp [UnorderedMultimap.equal_range, UnorderedMultimap.erase, List.filter_filter]

theorem equal_range_erase_other {β : Type} (m : List (String × β)) (k key : String)
    (hne : key ≠ k) :
    UnorderedMultimap.equal_range (UnorderedMultimap.erase m k) key =
      UnorderedMultimap.equal_range m key := by
  simp only [UnorderedMultimap.equal_range, UnorderedMultimap.erase, List.filter_filter]
  apply List.filter_congr
  intro p _
  by_cases hp : p.1 = key
  · simp [hp, hne]
  · simp [hp]

/-- C13. For every topic table and topic `T`, after `RemoveSubscription(T)` no handler
is registered on `T`, so `HandleMessage(T, P)` calls none; the handlers of every other
topic and the whole command table are as before. -/
theorem RemoveSubscription_clears_topic (s : Service) (T P : String) :
    handlersOn (s.RemoveSubscription T) T = [] ∧
    invocations ((s.RemoveSubscription T).HandleMessage T P).Trace = invocations s.Trace ∧
    (∀ other : String, other ≠ T →
      handlersOn (s.RemoveSubscription T) other = handlersOn s other) ∧
    (s.RemoveSubscription T).CommandHandlers = s.CommandHandlers := by
  have hnone : handlersOn (s.RemoveSubscription T) T = [] := by
    simp [handlersOn, Service.RemoveSubscription, equal_range_erase_same]
  refine ⟨hnone, ?_, ?_, rfl⟩
  · rw [(HandleMessage_trace (s.RemoveSubscription T) T P).1, hnone]
    simp [callables, Service.RemoveSubscription, Service.record, invocations_append,
      invocations]
  · intro other hne
    simp [handlersOn, Service.RemoveSubscription, Service.record,
      equal_range_erase_other _ _ _ hne]

/-- C13 at a concrete input: two handlers on `alerts` and one on `news`; removing
`alerts` leaves `news` as it was. -/
theorem RemoveSubscription_clears_topic_witness :
    "news" ≠ "alerts" ∧
    handlersOn
      ((addSubscriptions "news" [some (Callable.user 3)]
        (addSubscriptions "alerts" [some (Callable.user 1), some (Callable.user 2)]
          (Service.create "svc"))).RemoveSubscription "alerts") "news" =
      handlersOn
        (addSubscriptions "news" [some (Callable.user 3)]
          (addSubscriptions "alerts" [some (Callable.user 1), some (Callable.user 2)]
            (Service.create "svc"))) "news" :=
  ⟨by decide,
    (RemoveSubscription_clears_topic
      (addSubscriptions "news" [some (Callable.user 3)]
        (addSubscriptions "alerts" [some (Callable.user 1), some (Callable.user 2)]
          (Service.create "svc"))) "alerts" "fire").2.2.1 "news" (by decide)⟩

/-- C14. For every command table, name and payload: `HandleCommand` calls a handler
exactly when the entry found under that name holds a non-empty handler, and then calls
that handler once with the payload and writes no error line. With no entry it writes
the line `Unknown command received`, with an empty handler the line
`Invalid command handler`; in both cases that line is all it does: no handler runs and
the table, `Enable` and `LifeFlag` stay as they were. -/
theorem HandleCommand_routes_or_reports (s : Service) (name P : String) :
    (invocations (s.HandleCommand name P).Trace ≠ invocations s.Trace ↔
      ∃ h : Callable, UnorderedMap.find s.CommandHandlers name = some (some h)) ∧
    (∀ h : Callable, UnorderedMap.find s.CommandHandlers name = some (some h) →
      invocations (s.HandleCommand name P).Trace = invocations s.Trace ++ [(h, P)] ∧
      errors (s.HandleCommand name P).Trace = errors s.Trace) ∧
    (UnorderedMap.find s.CommandHandlers name = none →
      s.HandleCommand name P =
        s.record (Event.RecordError ("Unknown command received: " ++ name))) ∧
    (UnorderedMap.find s.CommandHandlers name = some none →
      s.HandleCommand name P =
        s.record (Event.RecordError ("Invalid command handler: " ++ name))) ∧
    (∀ text : String,
      invocations (s.record (Event.RecordError text)).Trace = invocations s.Trace ∧
      errors (s.record (Event.RecordError text)).Trace = errors s.Trace ++ [text] ∧
      (s.record (Event.RecordError text)).CommandHandlers = s.CommandHandlers ∧
      (s.record (Event.RecordError text)).MessageHandlers = s.MessageHandlers ∧
      (s.record (Event.RecordError text)).Enable = s.Enable ∧
      (s.record (Event.RecordError text)).LifeFlag = s.LifeFlag) := by
  refine ⟨?_, ?_, ?_, ?_, ?_⟩
  · unfold Service.HandleCommand
    cases hf : UnorderedMap.find s.CommandHandlers name with
    | none => simp [Service.record, invocations_append, invocations]
    | some v =>
      cases v with
      | none => simp [Service.record, invocations_append, invocations]
      | some h => simp [call_invocations]
  · intro h hf
    simp only [Service.HandleCommand, hf, call_invocations, call_errors, and_self]
  · intro hf
    simp only [Service.HandleCommand, hf]
  · intro hf
    simp only [Service.HandleCommand, hf]
  · intro text
    simp [Service.record, invocations_append, invocations, errors_append, errors]

/-- C14 at a concrete input: on the service `echo` the name `a/b` has a handler, `idle`
an empty one and `nothing` no entry. -/
theorem HandleCommand_routes_or_reports_witness :
    UnorderedMap.find echoService.CommandHandlers "a/b" = some (some (Callable.user 1)) ∧
    invocations (echoService.HandleCommand "a/b" "x").Trace =
      invocations echoService.Trace ++ [(Callable.user 1, "x")] ∧
    UnorderedMap.find echoService.CommandHandlers "nothing" = none ∧
    echoService.HandleCommand "nothing" "x" =
      echoService.record (Event.RecordError ("Unknown command received: " ++ "nothing")) ∧
    UnorderedMap.find echoService.CommandHandlers "idle" = some none ∧
    echoService.HandleCommand "idle" "x" =
      echoService.record (Event.RecordError ("Invalid command handler: " ++ "idle")) :=
  ⟨by decide,
    ((HandleCommand_routes_or_reports echoService "a/b" "x").2.1 (Callable.user 1)
      (by decide)).1,
    by decide,
    (HandleCommand_routes_or_reports echoService "nothing" "x").2.2.1 (by decide),
    by decide,
    (HandleCommand_routes_or_reports echoService "idle" "x").2.2.2.1 (by decide)⟩

/-- C15, as amended. For every pattern-message event whose channel name is malformed,
no command is dispatched: a channel shorter than 4 characters is dropped with nothing
written, and a channel of at least 4 characters without `/` is dropped with the one
error line `Error format command`. -/
theorem on_pmessage_drops_malformed (s : Service) (pattern channel M : String) :
    (channel.length < 4 → s.on_pmessage pattern channel M = s) ∧
    (4 ≤ channel.length → '/' ∉ channel.data →
      s.on_pmessage pattern channel M =
        s.record (Event.RecordError ("Error format command " ++ channel))) := by
  refine ⟨?_, ?_⟩
  · intro hlen
    simp [Service.on_pmessage, hlen]
  · intro hlen hslash
    have hnot : ¬ channel.length < 4 := by omega
    simp only [Service.on_pmessage, hnot, if_false, find_last_of,
      lastIndexOf_eq_none '/' channel.data hslash]

/-- C15, amended claim at concrete inputs: the channels `abc` and `nocommand`. -/
theorem on_pmessage_drops_malformed_witness :
    "abc".length < 4 ∧
    (Service.create "svc").on_pmessage "svc/command*" "abc" "x" = Service.create "svc" ∧
    4 ≤ "nocommand".length ∧ '/' ∉ "nocommand".data ∧
    (Service.create "svc").on_pmessage "svc/command*" "nocommand" "x" =
      (Service.create "svc").record
        (Event.RecordError ("Error format command " ++ "nocommand")) :=
  ⟨by decide,
    (on_pmessage_drops_malformed (Service.create "svc") "svc/command*" "abc" "x").1
      (by decide),
    by decide, by decide,
    (on_pmessage_drops_malformed (Service.create "svc") "svc/command*" "nocommand" "x").2
      (by decide) (by decide)⟩

/-- C15, counterexample. The channel `abc` has no `/` and fewer than 4 characters; the
callback returns at once and writes no error line. -/
theorem on_pmessage_short_channel_silent :
    '/' ∉ "abc".data ∧ "abc".length < 4 ∧
    errors ((Service.create "svc").on_pmessage "svc/command*" "abc" "x").Trace = [] ∧
    ((Service.create "svc").on_pmessage "svc/command*" "abc" "x").Trace = [] := by
  decide

/-! ## The background consumer and `Enable` -/

theorem record_sameButEnable (e : Event) (a b : Service) (hab : sameButEnable a b) :
    sameButEnable (a.record e) (b.record e) := by
  obtain ⟨h1, h2, h3, h4, h5, h6, h7⟩ := hab
  simp [sameButEnable, Service.record, *]

theorem call_sameButEnable (h : Callable) (content : String) (a b : Service)
    (hab : sameButEnable a b) : sameButEnable (h.call content a) (h.call content b) := by
  obtain ⟨h1, h2, h3, h4, h5, h6, h7⟩ := hab
  cases h <;> simp [sameButEnable, Callable.call, Service.record, *]

theorem HandleCommand_sameButEnable (name content : String) (a b : Service)
    (hab : sameButEnable a b) :
    sameButEnable (a.HandleCommand name content) (b.HandleCommand name content) := by
  simp only [Service.HandleCommand, hab.2.2.1]
  cases hf : UnorderedMap.find b.CommandHandlers name with
  | none => exact record_sameButEnable _ a b hab
  | some v =>
    cases v with
    | none => exact record_sameButEnable _ a b hab
    | some h => exact call_sameButEnable h content a b hab

theorem run_range_sameButEnable (content : String) (range : List (String × MessageHandler))
    (a b : Service) (hab : sameButEnable a b) :
    sameButEnable
      (range.foldl
        (fun t pair =>
          match pair.2 with
          | some h => h.call content t
          | none => t) a)
      (range.foldl
        (fun t pair =>
          match pair.2 with
          | some h => h.call content t
          | none => t) b) := by
  induction range generalizing a b with
  | nil => exact hab
  | cons p rest ih =>
    obtain ⟨k, v⟩ := p
    cases v with
    | none => exact ih a b hab
    | some h => exact ih _ _ (call_sameButEnable h content a b hab)

theorem HandleMessage_sameButEnable (channel content : String) (a b : Service)
    (hab : sameButEnable a b) :
    sameButEnable (a.HandleMessage channel content) (b.HandleMessage channel content) := by
  simp only [Service.HandleMessage, hab.2.2.2.1]
  cases hr : UnorderedMultimap.equal_range b.MessageHandlers channel with
  | nil => exact record_sameButEnable _ a b hab
  | cons p rest => exact run_range_sameButEnable content (p :: rest) a b hab

theorem deliver_sameButEnable (d : Delivery) (a b : Service) (hab : sameButEnable a b) :
    sameButEnable (a.deliver d) (b.deliver d) := by
  cases d with
  | pmessage pattern channel message =>
    simp only [Service.deliver, Service.on_pmessage]
    by_cases hlen : channel.length < 4
    · simpa [hlen] using hab
    · simp only [hlen, if_false]
      cases find_last_of channel '/' with
      | none => exact record_sameButEnable _ a b hab
      | some i =>
        by_cases hc : substr channel (i + 1) = "command"
        · simpa [hc] using HandleCommand_sameButEnable message "" a b hab
        · simpa [hc] using
            HandleCommand_sameButEnable (substr channel (i + 1)) message a b hab
  | message channel message =>
    exact HandleMessage_sameButEnable channel message a b hab

theorem deliveries_sameButEnable (ds : List Delivery) (a b : Service)
    (hab : sameButEnable a b) :
    sameButEnable (ds.foldl Service.deliver a) (ds.foldl Service.deliver b) := by
  induction ds generalizing a b with
  | nil => exact hab
  | cons d rest ih => exact ih _ _ (deliver_sameButEnable d a b hab)

theorem call_LastHeartBeatTime (h : Callable) (content : String) (s : Service) :
    (h.call content s).LastHeartBeatTime = s.LastHeartBeatTime := by
  cases h <;> rfl

theorem HandleCommand_LastHeartBeatTime (s : Service) (name content : String) :
    (s.HandleCommand name content).LastHeartBeatTime = s.LastHeartBeatTime := by
  unfold Service.HandleCommand
  cases UnorderedMap.find s.CommandHandlers name with
  | none => rfl
  | some v =>
    cases v with
    | none => rfl
    | some h => exact call_LastHeartBeatTime h content s

theorem run_range_LastHeartBeatTime (content : String)
    (range : List (String × MessageHandler)) (s : Service) :
    (range.foldl
      (fun t pair =>
        match pair.2 with
        | some h => h.call content t
        | none => t) s).LastHeartBeatTime = s.LastHeartBeatTime := by
  induction range generalizing s with
  | nil => rfl
  | cons p rest ih =>
    obtain ⟨k, v⟩ := p
    cases v with
    | none => exact ih s
    | some h => exact (ih _).trans (call_LastHeartBeatTime h content s)

theorem HandleMessage_LastHeartBeatTime (s : Service) (channel content : String) :
    (s.HandleMessage channel content).LastHeartBeatTime = s.LastHeartBeatTime := by
  unfold Service.HandleMessage
  cases hr : UnorderedMultimap.equal_range s.MessageHandlers channel with
  | nil => rfl
  | cons p rest => exact run_range_LastHeartBeatTime content (p :: rest) s

theorem deliver_LastHeartBeatTime (s : Service) (d : Delivery) :
    (s.deliver d).LastHeartBeatTime = s.LastHeartBeatTime := by
  cases d with
  | pmessage pattern channel message =>
    simp only [Service.deliver, Service.on_pmessage]
    by_cases hlen : channel.length < 4
    · simp [hlen]
    · simp only [hlen, if_false]
      cases find_last_of channel '/' with
      | none => rfl
      | some i =>
        by_cases hc : substr channel (i + 1) = "command"
        · simpa [hc] using HandleCommand_LastHeartBeatTime s message ""
        · simpa [hc] using
            HandleCommand_LastHeartBeatTime s (substr channel (i + 1)) message
  | message channel message => exact HandleMessage_LastHeartBeatTime s channel message

theorem deliveries_LastHeartBeatTime (ds : List Delivery) (s : Service) :
    (ds.foldl Service.deliver s).LastHeartBeatTime = s.LastHeartBeatTime := by
  induction ds generalizing s with
  | nil => rfl
  | cons d rest ih => exact (ih _).trans (deliver_LastHeartBeatTime s d)

/-- No pass of the background consumer writes `LastHeartBeatTime`: it stays at the
value `Install` gave it. -/
theorem MessageUpdaterPass_keeps_LastHeartBeatTime (r : Runtime) (consumed : Consumed)
    (current_time : Nat) :
    (r.MessageUpdaterPass consumed current_time).service.LastHeartBeatTime =
      r.service.LastHeartBeatTime := by
  have hd := deliveries_LastHeartBeatTime consumed.deliveries r.service
  simp only [Runtime.MessageUpdaterPass]
  cases consumed.error with
  | true => exact hd
  | false =>
    by_cases hdue :
        (consumed.deliveries.foldl Service.deliver r.service).LastHeartBeatTime + seconds 1 <
          current_time
    · simpa [hdue] using hd
    · simpa [hdue] using hd

/-- Every pass in which `consume()` returns, later than one second after the value of
`LastHeartBeatTime`, calls `NameClient::Update`, however recent the refresh before. -/
theorem MessageUpdaterPass_refreshes_when_due (r : Runtime) (consumed : Consumed)
    (current_time : Nat) (hok : consumed.error = false)
    (hdue : r.service.LastHeartBeatTime + seconds 1 < current_time) :
    (r.MessageUpdaterPass consumed current_time).NameResolver =
      r.NameResolver.Update current_time := by
  have hd := deliveries_LastHeartBeatTime consumed.deliveries r.service
  simp [Runtime.MessageUpdaterPass, hok, hd, hdue]

/-- What the pattern-message callback does with the event of a command whose name has
no `/`, is not the word `command` and is registered with a non-empty handler: it calls
that handler with the message. -/
theorem on_pmessage_named_command (s : Service) (pattern N P : String) (h : Callable)
    (hslash : '/' ∉ N.data) (hname : N ≠ "command")
    (hreg : UnorderedMap.find s.CommandHandlers N = some (some h)) :
    s.on_pmessage pattern (s.Name ++ "/command/" ++ N) P = h.call P s := by
  have hdata : (s.Name ++ "/command/" ++ N).data =
      (s.Name.data ++ "/command".data) ++ '/' :: N.data := by
    simp [String.data_append]
  have hidx : find_last_of (s.Name ++ "/command/" ++ N) '/' =
      some (s.Name.data ++ "/command".data).length := by
    unfold find_last_of
    rw [hdata]
    exact lastIndexOf_append_cons _ _ _ hslash
  have hsub : substr (s.Name ++ "/command/" ++ N)
      ((s.Name.data ++ "/command".data).length + 1) = N := by
    unfold substr
    rw [hdata, drop_length_succ_append_cons]
  have hlen : ¬ (s.Name ++ "/command/" ++ N).length < 4 := by
    have h9 : "/command/".length = 9 := by decide
    simp only [String.length_append, h9]
    omega
  simp only [Service.on_pmessage, hlen, if_false, hidx, hsub, hname,
    Service.HandleCommand, hreg]

theorem MessageUpdaterPass_service (r : Runtime) (consumed : Consumed) (current_time : Nat) :
    (r.MessageUpdaterPass consumed current_time).service =
      consumed.deliveries.foldl Service.deliver r.service := by
  simp only [Runtime.MessageUpdaterPass]
  cases consumed.error with
  | true => rfl
  | false =>
    by_cases hdue :
        (consumed.deliveries.foldl Service.deliver r.service).LastHeartBeatTime + seconds 1 <
          current_time
    · simp [hdue]
    · simp [hdue]

/-- C17. A paused service keeps processing traffic, and the consumer does not depend on
`Enable`. For any two runtimes whose services differ at most in `Enable` (one of them
may be paused), one pass of the background consumer with the same inbound traffic at
the same time: hands every reply of `consume()` to its callback, in order, in both;
leaves the same trace (the same command and message dispatches, the same log lines),
the same tables and flags apart from `Enable`, and the same name client; refreshes the
presence records through `NameClient::Update` when `consume()` returns later than one
second after `LastHeartBeatTime`; calls the handler of a registered command whose
event it receives (so that `resume` reaches a paused service); and calls every
non-empty handler of the topic of a message it receives. -/
theorem MessageUpdaterPass_independent_of_Enable (r1 r2 : Runtime) (consumed : Consumed)
    (current_time : Nat) (hsame : sameButEnable r1.service r2.service)
    (hnames : r1.NameResolver = r2.NameResolver) :
    (r1.MessageUpdaterPass consumed current_time).service.Trace =
      (r2.MessageUpdaterPass consumed current_time).service.Trace ∧
    sameButEnable (r1.MessageUpdaterPass consumed current_time).service
      (r2.MessageUpdaterPass consumed current_time).service ∧
    (r1.MessageUpdaterPass consumed current_time).NameResolver =
      (r2.MessageUpdaterPass consumed current_time).NameResolver ∧
    (r1.MessageUpdaterPass consumed current_time).service =
      consumed.deliveries.foldl Service.deliver r1.service ∧
    (r2.MessageUpdaterPass consumed current_time).service =
      consumed.deliveries.foldl Service.deliver r2.service ∧
    (consumed.error = false → r1.service.LastHeartBeatTime + seconds 1 < current_time →
      (r1.MessageUpdaterPass consumed current_time).NameResolver =
        r1.NameResolver.Update current_time ∧
      (r2.MessageUpdaterPass consumed current_time).NameResolver =
        r1.NameResolver.Update current_time) ∧
    (∀ (pattern N P : String) (h : Callable) (failed : Bool),
      '/' ∉ N.data → N ≠ "command" →
      UnorderedMap.find r1.service.CommandHandlers N = some (some h) →
      (r1.MessageUpdaterPass
        (Consumed.single (Delivery.pmessage pattern (r1.service.Name ++ "/command/" ++ N) P)
          failed) current_time).service = h.call P r1.service ∧
      (r2.MessageUpdaterPass
        (Consumed.single (Delivery.pmessage pattern (r1.service.Name ++ "/command/" ++ N) P)
          failed) current_time).service = h.call P r2.service) ∧
    (∀ (T P : String) (failed : Bool),
      invocations
          (r1.MessageUpdaterPass (Consumed.single (Delivery.message T P) failed)
            current_time).service.Trace =
        invocations r1.service.Trace ++
          (callables (handlersOn r1.service T)).map (fun h => (h, P)) ∧
      invocations
          (r2.MessageUpdaterPass (Consumed.single (Delivery.message T P) failed)
            current_time).service.Trace =
        invocations r1.service.Trace ++
          (callables (handlersOn r1.service T)).map (fun h => (h, P))) := by
  have hs := deliveries_sameButEnable consumed.deliveries r1.service r2.service hsame
  have hbeat12 : r1.service.LastHeartBeatTime = r2.service.LastHeartBeatTime :=
    hsame.2.2.2.2.1
  refine ⟨?_, ?_, ?_, MessageUpdaterPass_service r1 consumed current_time,
    MessageUpdaterPass_service r2 consumed current_time, ?_, ?_, ?_⟩
  · rw [MessageUpdaterPass_service, MessageUpdaterPass_service]
    exact hs.2.2.2.2.2.2
  · rw [MessageUpdaterPass_service, MessageUpdaterPass_service]
    exact hs
  · have hbeat := hs.2.2.2.2.1
    simp only [Runtime.MessageUpdaterPass, hnames, hbeat]
    cases consumed.error with
    | true => rfl
    | false =>
      by_cases hdue :
          (consumed.deliveries.foldl Service.deliver r2.service).LastHeartBeatTime +
            seconds 1 < current_time
      · simp only [hdue, if_true]
        rfl
      · simp only [hdue, if_false]
        rfl
  · intro hok hdue
    refine ⟨MessageUpdaterPass_refreshes_when_due r1 consumed current_time hok hdue, ?_⟩
    rw [hnames]
    exact MessageUpdaterPass_refreshes_when_due r2 consumed current_time hok (hbeat12 ▸ hdue)
  · intro pattern N P h failed hslash hname hreg
    have hreg2 : UnorderedMap.find r2.service.CommandHandlers N = some (some h) := by
      rw [← hsame.2.2.1]; exact hreg
    refine ⟨?_, ?_⟩
    · rw [MessageUpdaterPass_service]
      simp only [Consumed.single, List.foldl_cons, List.foldl_nil, Service.deliver]
      exact on_pmessage_named_command r1.service pattern N P h hslash hname hreg
    · rw [MessageUpdaterPass_service]
      simp only [Consumed.single, List.foldl_cons, List.foldl_nil, Service.deliver]
      rw [hsame.1]
      exact on_pmessage_named_command r2.service pattern N P h hslash hname hreg2
  · intro T P failed
    have hT : handlersOn r2.service T = handlersOn r1.service T := by
      simp only [handlersOn, hsame.2.2.2.1]
    refine ⟨?_, ?_⟩
    · rw [MessageUpdaterPass_service]
      simp only [Consumed.single, List.foldl_cons, List.foldl_nil, Service.deliver,
        Service.on_message]
      exact (HandleMessage_trace r1.service T P).1
    · rw [MessageUpdaterPass_service]
      simp only [Consumed.single, List.foldl_cons, List.foldl_nil, Service.deliver,
        Service.on_message]
      rw [(HandleMessage_trace r2.service T P).1, hT, hsame.2.2.2.2.2.2]

/-- C17 at a concrete input: the installed test service, paused. A pass that receives
the command `greet` and a message on `sample_channel` calls both handlers, as the
running service does, and refreshes the name; a pass that receives `resume` sets
`Enable` again. -/
theorem MessageUpdaterPass_independent_of_Enable_witness :
    sameButEnable TestService.pausedRuntime.service TestService.runtime.service ∧
    TestService.pausedRuntime.NameResolver = TestService.runtime.NameResolver ∧
    TestService.pausedRuntime.service.Enable = false ∧
    (TestService.pausedRuntime.MessageUpdaterPass TestService.traffic 1500).service.Trace =
      (TestService.runtime.MessageUpdaterPass TestService.traffic 1500).service.Trace ∧
    invocations
      (TestService.pausedRuntime.MessageUpdaterPass TestService.traffic 1500).service.Trace =
      [(Callable.user 1, "you"), (Callable.user 2, "hi")] ∧
    TestService.traffic.error = false ∧
    TestService.pausedRuntime.service.LastHeartBeatTime + seconds 1 < 1500 ∧
    (TestService.pausedRuntime.MessageUpdaterPass TestService.traffic 1500).NameResolver =
      TestService.pausedRuntime.NameResolver.Update 1500 ∧
    TestService.pausedRuntime.NameResolver.Update 1500 ≠
      TestService.pausedRuntime.NameResolver ∧
    '/' ∉ "resume".data ∧ "resume" ≠ "command" ∧
    UnorderedMap.find TestService.pausedRuntime.service.CommandHandlers "resume" =
      some (some Callable.resume) ∧
    (TestService.pausedRuntime.MessageUpdaterPass
      (Consumed.single
        (Delivery.pmessage "svc/command*"
          (TestService.pausedRuntime.service.Name ++ "/command/" ++ "resume") "go")
        false) 1500).service =
      Callable.resume.call "go" TestService.pausedRuntime.service ∧
    (TestService.pausedRuntime.MessageUpdaterPass
      (Consumed.single
        (Delivery.pmessage "svc/command*"
          (TestService.pausedRuntime.service.Name ++ "/command/" ++ "resume") "go")
        false) 1500).service.Enable = true :=
  ⟨by decide, by decide, by decide,
    (MessageUpdaterPass_independent_of_Enable TestService.pausedRuntime TestService.runtime
      TestService.traffic 1500 (by decide) (by decide)).1,
    by decide, by decide, by decide,
    ((MessageUpdaterPass_independent_of_Enable TestService.pausedRuntime TestService.runtime
      TestService.traffic 1500 (by decide) (by decide)).2.2.2.2.2.1 (by decide)
      (by decide)).1,
    by decide, by decide, by decide, by decide,
    ((MessageUpdaterPass_independent_of_Enable TestService.pausedRuntime TestService.runtime
      TestService.traffic 1500 (by decide) (by decide)).2.2.2.2.2.2.1 "svc/command*"
      "resume" "go" Callable.resume false (by decide) (by decide) (by decide)).1,
    by decide⟩

/-! ## Presence records under refresh and removal -/

theorem records_erase_same (db : Redis) (key : String) :
    Redis.records (UnorderedMap.erase db key) key = 0 := by
  simp [Redis.records, UnorderedMap.erase, List.filter_filter]

theorem records_erase_other (db : Redis) (k key : String) (hne : k ≠ key) :
    Redis.records (UnorderedMap.erase db k) key = Redis.records db key := by
  simp only [Redis.records, UnorderedMap.erase, List.filter_filter]
  congr 1
  apply List.filter_congr
  intro p _
  by_cases hp : p.1 = key
  · have hkk : ¬ key = k := fun e => hne e.symm
    simp [hp, hkk]
  · simp [hp]

theorem erase_of_find_none {β : Type} (m : List (String × β)) (key : String)
    (h : UnorderedMap.find m key = none) : UnorderedMap.erase m key = m := by
  induction m with
  | nil => rfl
  | cons p rest ih =>
    obtain ⟨k, v⟩ := p
    by_cases hk : k = key
    · simp [UnorderedMap.find, hk] at h
    · simp only [UnorderedMap.find, hk, if_false] at h
      have step := ih h
      simp only [UnorderedMap.erase] at step ⊢
      rw [List.filter_cons, if_pos (by simp [hk]), step]

theorem mem_erase_ne {β : Type} (m : List (String × β)) (key : String) (p : String × β)
    (h : p ∈ UnorderedMap.erase m key) : p.1 ≠ key := by
  simp only [UnorderedMap.erase, List.mem_filter, decide_eq_true_eq] at h
  exact h.2

namespace Clients

theorem names_key_inj (m n : String) (h : "names/" ++ m = "names/" ++ n) : m = n := by
  have hd := congrArg String.data h
  simp only [String.data_append] at hd
  exact String.ext (List.append_cancel_left hd)

theorem SET_other (db : Redis) (t : Nat) (k key value : String) (ttl : Option Nat)
    (hne : k ≠ key) :
    UnorderedMap.find (Redis.SET db t k value ttl) key = UnorderedMap.find db key ∧
    Redis.records (Redis.SET db t k value ttl) key = Redis.records db key := by
  refine ⟨by simp [Redis.SET, UnorderedMap.find, find_erase, hne], ?_⟩
  have step := records_erase_other db k key hne
  simp only [Redis.records] at step
  simp [Redis.SET, Redis.records, List.filter_cons, hne, step]

theorem EXPIRE_other (db : Redis) (t : Nat) (k key : String) (ttl : Nat) (hne : k ≠ key) :
    UnorderedMap.find (Redis.EXPIRE db t k ttl) key = UnorderedMap.find db key ∧
    Redis.records (Redis.EXPIRE db t k ttl) key = Redis.records db key := by
  unfold Redis.EXPIRE
  cases Redis.entry db t k with
  | none => exact ⟨rfl, rfl⟩
  | some e =>
    refine ⟨by simp [UnorderedMap.find, find_erase, hne], ?_⟩
    have step := records_erase_other db k key hne
    simp only [Redis.records] at step
    simp [Redis.records, List.filter_cons, hne, step]

theorem UpdateName_other (c : NameClient) (now : Nat) (m address key : String)
    (hne : "names/" ++ m ≠ key) :
    UnorderedMap.find (c.UpdateName now m address).Connection key =
      UnorderedMap.find c.Connection key ∧
    Redis.records (c.UpdateName now m address).Connection key =
      Redis.records c.Connection key := by
  unfold NameClient.UpdateName
  cases Redis.EXISTS c.Connection now m with
  | true => simpa using EXPIRE_other c.Connection now _ key (seconds 2) hne
  | false => simpa using SET_other c.Connection now _ key address none hne

theorem UpdateName_same (c : NameClient) (now d : Nat) (n address : String) (e : RedisEntry)
    (hd : d ≤ seconds 2)
    (hentry : Redis.entry c.Connection now ("names/" ++ n) = some e) :
    Redis.records (c.UpdateName now n address).Connection ("names/" ++ n) = 1 ∧
    ∃ e2 : RedisEntry,
      Redis.entry (c.UpdateName now n address).Connection now ("names/" ++ n) = some e2 ∧
      e2.ttlAtLeast now d := by
  have hzero := records_erase_same c.Connection ("names/" ++ n)
  simp only [Redis.records] at hzero
  unfold NameClient.UpdateName
  cases Redis.EXISTS c.Connection now n with
  | true =>
    refine ⟨by simp [Redis.EXPIRE, hentry, Redis.records, List.filter_cons, hzero],
      ⟨{ e with expire_at := some (now + seconds 2) }, ?_, ?_⟩⟩
    · simp only [Redis.EXPIRE, hentry]
      simp [Redis.entry, UnorderedMap.find, Redis.alive, seconds]
    · simpa [RedisEntry.ttlAtLeast] using hd
  | false =>
    refine ⟨by simp [Redis.SET, Redis.records, List.filter_cons, hzero],
      ⟨{ value := address, expire_at := none }, ?_, ?_⟩⟩
    · simp [Redis.SET, Redis.entry, UnorderedMap.find, Redis.alive]
    · simp [RedisEntry.ttlAtLeast]

theorem entry_of_find_eq (db1 db2 : Redis) (now : Nat) (key : String)
    (h : UnorderedMap.find db1 key = UnorderedMap.find db2 key) :
    Redis.entry db1 now key = Redis.entry db2 now key := by
  simp only [Redis.entry, h]

theorem refresh_fold_keeps (names : List (String × String)) (c : NameClient) (now d : Nat)
    (n : String) (hd : d ≤ seconds 2)
    (hone : Redis.records c.Connection ("names/" ++ n) = 1)
    (hentry : ∃ e : RedisEntry,
      Redis.entry c.Connection now ("names/" ++ n) = some e ∧ e.ttlAtLeast now d) :
    Redis.records
        (names.foldl (fun t entry => NameClient.UpdateName t now entry.1 entry.2)
          c).Connection ("names/" ++ n) = 1 ∧
    ∃ e : RedisEntry,
      Redis.entry
          (names.foldl (fun t entry => NameClient.UpdateName t now entry.1 entry.2)
            c).Connection now ("names/" ++ n) = some e ∧
      e.ttlAtLeast now d := by
  induction names generalizing c with
  | nil => exact ⟨hone, hentry⟩
  | cons p rest ih =>
    obtain ⟨m, address⟩ := p
    simp only [List.foldl_cons]
    by_cases hm : "names/" ++ m = "names/" ++ n
    · obtain ⟨e, he, _⟩ := hentry
      rw [← hm] at he
      have step := UpdateName_same c now d m address e hd he
      rw [hm] at step
      exact ih _ step.1 step.2
    · have step := UpdateName_other c now m address ("names/" ++ n) hm
      obtain ⟨e, he, httl⟩ := hentry
      refine ih _ (step.2.trans hone) ⟨e, ?_, httl⟩
      rw [entry_of_find_eq _ c.Connection now _ step.1]
      exact he

theorem ttlAtLeast_mono (e : RedisEntry) (now t d : Nat) (hd : d ≤ t)
    (h : e.ttlAtLeast now t) : e.ttlAtLeast now d := by
  revert h
  unfold RedisEntry.ttlAtLeast
  cases e.expire_at with
  | none => exact fun _ => trivial
  | some x =>
    intro h
    simp only at h ⊢
    omega

/-- C11, as amended. For every name whose record exists at `now` with at least `t` left
to live, and of which the store holds one record: after any number of calls of
`Update()` at the instant `now` the store still holds exactly one record for the name,
the record still exists, and it has at least the smaller of `t` and two seconds left
to live. -/
theorem Update_keeps_record (c : NameClient) (now t k : Nat) (n : String) (e : RedisEntry)
    (hone : Redis.records c.Connection ("names/" ++ n) = 1)
    (hentry : Redis.entry c.Connection now ("names/" ++ n) = some e)
    (httl : e.ttlAtLeast now t) :
    Redis.records (NameClient.refreshTimes k c now).Connection ("names/" ++ n) = 1 ∧
    ∃ e2 : RedisEntry,
      Redis.entry (NameClient.refreshTimes k c now).Connection now ("names/" ++ n) =
        some e2 ∧
      e2.ttlAtLeast now (min t (seconds 2)) := by
  have start : ∃ e0 : RedisEntry,
      Redis.entry c.Connection now ("names/" ++ n) = some e0 ∧
      e0.ttlAtLeast now (min t (seconds 2)) :=
    ⟨e, hentry, ttlAtLeast_mono e now t _ (Nat.min_le_left _ _) httl⟩
  clear hentry httl
  induction k generalizing c with
  | zero => exact ⟨hone, start⟩
  | succ j ih =>
    have step := refresh_fold_keeps c.Names c now (min t (seconds 2)) n
      (Nat.min_le_right _ _) hone start
    exact ih (c.Update now) step.1 step.2

/-- C11, amended claim at a concrete input: the name `svc` right after its
registration, refreshed three times at the same instant. -/
theorem Update_keeps_record_witness :
    Redis.records NameClient.registered.Connection ("names/" ++ "svc") = 1 ∧
    Redis.entry NameClient.registered.Connection 0 ("names/" ++ "svc") =
      some { value := "addr", expire_at := some 3000 } ∧
    RedisEntry.ttlAtLeast { value := "addr", expire_at := some 3000 } 0 3000 ∧
    Redis.records (NameClient.refreshTimes 3 NameClient.registered 0).Connection
      ("names/" ++ "svc") = 1 ∧
    ∃ e2 : RedisEntry,
      Redis.entry (NameClient.refreshTimes 3 NameClient.registered 0).Connection 0
        ("names/" ++ "svc") = some e2 ∧
      e2.ttlAtLeast 0 (min 3000 (seconds 2)) :=
  ⟨by decide, by decide, by decide,
    Update_keeps_record NameClient.registered 0 3000 3 "svc"
      { value := "addr", expire_at := some 3000 } (by decide) (by decide) (by decide)⟩

/-- C11, counterexample. The server holds a key `svc` besides the record `names/svc`,
which has 3000 ms left to live right after `RegisterName`; one `Update()` at the same
instant sets its time to live to 2000 ms. -/
theorem Update_shortens_time_to_live :
    UnorderedMap.find NameClient.shadowed.Names "svc" = some "addr" ∧
    Redis.records NameClient.shadowed.Connection "names/svc" = 1 ∧
    Redis.entry NameClient.shadowed.Connection 0 "names/svc" =
      some { value := "addr", expire_at := some 3000 } ∧
    Redis.entry (NameClient.shadowed.Update 0).Connection 0 "names/svc" =
      some { value := "addr", expire_at := some 2000 } ∧
    ¬ RedisEntry.ttlAtLeast { value := "addr", expire_at := some 2000 } 0 3000 := by
  decide

theorem refresh_fold_other (names : List (String × String)) (c : NameClient) (now : Nat)
    (n : String) (hnames : ∀ p ∈ names, p.1 ≠ n) :
    Redis.records
        (names.foldl (fun t entry => NameClient.UpdateName t now entry.1 entry.2)
          c).Connection ("names/" ++ n) =
      Redis.records c.Connection ("names/" ++ n) := by
  induction names generalizing c with
  | nil => rfl
  | cons p rest ih =>
    obtain ⟨m, address⟩ := p
    have hm : m ≠ n := hnames (m, address) (List.mem_cons_self _ _)
    have hkey : "names/" ++ m ≠ "names/" ++ n := fun e => hm (names_key_inj m n e)
    simp only [List.foldl_cons]
    rw [ih _ (fun q hq => hnames q (List.mem_cons_of_mem _ hq))]
    exact (UpdateName_other c now m address _ hkey).2

/-- C12. For every store, owned-names set and name `n`: after `UnregisterName(n)` the
store holds no record at `"names/" + n` and `n` is not owned; a following `Update()`
at any time does not bring the record back; every other key of the store and every
other owned entry is as before; and when `n` was never registered the call changes
nothing. -/
theorem UnregisterName_removes_record (c : NameClient) (n : String) (now : Nat) :
    Redis.records (c.UnregisterName n).Connection ("names/" ++ n) = 0 ∧
    UnorderedMap.find (c.UnregisterName n).Names n = none ∧
    Redis.records ((c.UnregisterName n).Update now).Connection ("names/" ++ n) = 0 ∧
    (∀ key : String, key ≠ "names/" ++ n →
      UnorderedMap.find (c.UnregisterName n).Connection key =
        UnorderedMap.find c.Connection key) ∧
    (∀ m : String, m ≠ n →
      UnorderedMap.find (c.UnregisterName n).Names m = UnorderedMap.find c.Names m) ∧
    (UnorderedMap.find c.Connection ("names/" ++ n) = none →
      UnorderedMap.find c.Names n = none → c.UnregisterName n = c) := by
  have hzero : Redis.records (c.UnregisterName n).Connection ("names/" ++ n) = 0 :=
    records_erase_same c.Connection ("names/" ++ n)
  refine ⟨hzero, ?_, ?_, ?_, ?_, ?_⟩
  · simp [NameClient.UnregisterName, find_erase]
  · have step := refresh_fold_other (c.UnregisterName n).Names (c.UnregisterName n) now n
      (fun p hp => mem_erase_ne c.Names n p hp)
    exact step.trans hzero
  · intro key hkey
    have hne : ¬ "names/" ++ n = key := fun e => hkey e.symm
    simp [NameClient.UnregisterName, Redis.DEL, find_erase, hne]
  · intro m hm
    have hne : ¬ n = m := fun e => hm e.symm
    simp [NameClient.UnregisterName, find_erase, hne]
  · intro hrecord howned
    simp [NameClient.UnregisterName, Redis.DEL, erase_of_find_none _ _ hrecord,
      erase_of_find_none _ _ howned]

/-- C12 at a concrete input: a client that owns `svc` and `aux` unregisters `svc`, and
a client that owns nothing unregisters `svc`. -/
theorem UnregisterName_removes_record_witness :
    "names/aux" ≠ "names/" ++ "svc" ∧
    UnorderedMap.find
      ((NameClient.registered.RegisterName 0 "aux" "b").UnregisterName "svc").Connection
      "names/aux" =
      UnorderedMap.find (NameClient.registered.RegisterName 0 "aux" "b").Connection
        "names/aux" ∧
    "aux" ≠ "svc" ∧
    UnorderedMap.find
      ((NameClient.registered.RegisterName 0 "aux" "b").UnregisterName "svc").Names "aux" =
      UnorderedMap.find (NameClient.registered.RegisterName 0 "aux" "b").Names "aux" ∧
    NameClient.connect.UnregisterName "svc" = NameClient.connect :=
  ⟨by decide,
    (UnregisterName_removes_record (NameClient.registered.RegisterName 0 "aux" "b") "svc"
      1000).2.2.2.1 "names/aux" (by decide),
    by decide,
    (UnregisterName_removes_record (NameClient.registered.RegisterName 0 "aux" "b") "svc"
      1000).2.2.2.2.1 "aux" (by decide),
    (UnregisterName_removes_record NameClient.connect "svc" 0).2.2.2.2.2 (by decide)
      (by decide)⟩

/-! ## Enumerating the names -/

theorem scanLoop_never_ends (c : NameClient) (now count : Nat)
    (output : List String → List String → List String)
    (hcount : 0 < count) (hmany : count < (Redis.keys c.Connection now).length)
    (fuel : Nat) (results : List String) :
    NameClient.scanLoop c now count output fuel results = none := by
  induction fuel generalizing results with
  | zero => rfl
  | succ k ih =>
    have hnext : (Redis.SCAN c.Connection now count 0 matchesNames).1 = count := by
      simp [Redis.SCAN, hmany]
    have hne : (Redis.SCAN c.Connection now count 0 matchesNames).1 ≠ 0 := by
      rw [hnext]; omega
    simp only [NameClient.scanLoop, hne, ne_eq, not_false_eq_true, if_true]
    exact ih _

/-- On a server whose keys fit into one `SCAN` call the loop ends after one iteration.
Had the results been appended, `GetNames()` would return the registered name; with a
list that the write through `results.end()` does not grow, it returns the empty set. -/
theorem GetNames_single_page :
    NameClient.GetNames NameClient.registered 0 10 (fun results batch => results ++ batch)
      1 = some ["svc"] ∧
    NameClient.GetNames NameClient.registered 0 10 (fun results _ => results) 1 =
      some [] := by
  decide

/-- C18, the code at the failing input. The server holds eleven presence records and a
`SCAN` call visits ten keys: the first call returns a cursor other than 0, the loop
calls `scan` with cursor 0 again, and `GetNames()` has no result after any number of
iterations, whatever the write through `results.end()` does. -/
theorem GetNames_never_returns (output : List String → List String → List String)
    (fuel : Nat) :
    (Redis.SCAN NameClient.crowded.Connection 0 10 0 matchesNames).1 = 10 ∧
    NameClient.GetNames NameClient.crowded 0 10 output fuel = none := by
  refine ⟨by decide, ?_⟩
  simp only [NameClient.GetNames,
    scanLoop_never_ends NameClient.crowded 0 10 output (by decide) (by decide) fuel [],
    Option.map_none']

end Clients

/-! ## The launcher -/

theorem updateLoop_shape (a : Attempt) (ticks : List Tick) (s : Service) (steps : List Step) :
    (a.updateLoop ticks s steps).outcome ≠ Outcome.help ∧
    ((a.updateLoop ticks s steps).outcome = Outcome.stopped →
      ∃ before : List Step,
        (a.updateLoop ticks s steps).steps =
          before ++ [Step.Updated false, Step.Uninstalled]) := by
  induction ticks generalizing s steps with
  | nil => simp [Attempt.updateLoop]
  | cons tick later ih =>
    simp only [Attempt.updateLoop]
    cases tick.thrown with
    | some thrown => simp
    | none =>
      simp only
      by_cases halive : (tick.inbound.foldl Service.deliver s).Update.2 = true
      · simp only [halive, if_true]
        exact ih _ _
      · simp only [halive]
        cases a.uninstall with
        | some thrown => simp
        | none => exact ⟨by simp, fun _ => ⟨steps, by simp⟩⟩

theorem connectAndRun_shape (a : Attempt) (s : Service) (steps : List Step) :
    (a.connectAndRun s steps).outcome ≠ Outcome.help ∧
    ((a.connectAndRun s steps).outcome = Outcome.stopped →
      ∃ before : List Step,
        (a.connectAndRun s steps).steps =
          before ++ [Step.Updated false, Step.Uninstalled]) := by
  simp only [Attempt.connectAndRun]
  cases a.connect with
  | some thrown => simp
  | none =>
    cases a.install with
    | some thrown => simp
    | none => exact updateLoop_shape a _ _ _

theorem runAttempt_shape (name : String) (command_line : CommandLine) (a : Attempt) :
    ((runAttempt name command_line a).outcome = Outcome.help →
      (runAttempt name command_line a).steps = [Step.Constructed, Step.Parsed]) ∧
    ((runAttempt name command_line a).outcome = Outcome.stopped →
      ∃ before : List Step,
        (runAttempt name command_line a).steps =
          before ++ [Step.Updated false, Step.Uninstalled]) := by
  simp only [runAttempt]
  cases a.construct with
  | some thrown => simp
  | none =>
    cases command_line with
    | absent =>
      exact ⟨fun h => absurd h (connectAndRun_shape a _ _).1, (connectAndRun_shape a _ _).2⟩
    | invalid what => simp
    | options help host port =>
      cases help with
      | true => simp
      | false =>
        exact ⟨fun h => absurd h (connectAndRun_shape a _ _).1,
          (connectAndRun_shape a _ _).2⟩

theorem Launch_cons_crashed (name : String) (command_line : CommandLine) (a : Attempt)
    (later : List Attempt) (h : (runAttempt name command_line a).crashed) :
    Launch name command_line (a :: later) =
      { attempts := runAttempt name command_line a ::
          (Launch name command_line later).attempts,
        exit := (Launch name command_line later).exit } := by
  obtain ⟨stage, what, h⟩ := h
  simp only [Launch, h]

theorem Launch_cons_final (name : String) (command_line : CommandLine) (a : Attempt)
    (later : List Attempt) (h : ¬ (runAttempt name command_line a).crashed) :
    (Launch name command_line (a :: later)).attempts = [runAttempt name command_line a] ∧
    ((Launch name command_line (a :: later)).exit = Exit.returned →
      (runAttempt name command_line a).outcome = Outcome.help ∨
      (runAttempt name command_line a).outcome = Outcome.stopped) := by
  simp only [Launch]
  cases ho : (runAttempt name command_line a).outcome with
  | threw stage thrown =>
    cases thrown with
    | std_exception what => exact absurd ⟨stage, what, ho⟩ h
    | other => simp
  | help => simp
  | stopped => simp
  | running => simp

theorem Launch_attempts_pos (name : String) (command_line : CommandLine) (a : Attempt)
    (later : List Attempt) : 0 < (Launch name command_line (a :: later)).attempts.length := by
  by_cases h : (runAttempt name command_line a).crashed
  · simp [Launch_cons_crashed name command_line a later h]
  · simp [(Launch_cons_final name command_line a later h).1]

theorem Launch_attempts_fresh (name : String) (command_line : CommandLine)
    (envs : List Attempt) :
    (Launch name command_line envs).attempts =
      (envs.take (Launch name command_line envs).attempts.length).map
        (runAttempt name command_line) := by
  induction envs with
  | nil => rfl
  | cons a later ih =>
    by_cases h : (runAttempt name command_line a).crashed
    · rw [Launch_cons_crashed name command_line a later h]
      simp only [List.length_cons, List.take_succ_cons, List.map_cons]
      rw [← ih]
    · simp [(Launch_cons_final name command_line a later h).1]

theorem Launch_next_attempt (name : String) (command_line : CommandLine)
    (envs : List Attempt) (i : Nat) (r : AttemptResult)
    (hr : (Launch name command_line envs).attempts[i]? = some r) (hc : r.crashed)
    (hmore : i + 1 < envs.length) :
    i + 1 < (Launch name command_line envs).attempts.length := by
  induction envs generalizing i with
  | nil => simp at hmore
  | cons a later ih =>
    by_cases h : (runAttempt name command_line a).crashed
    · rw [Launch_cons_crashed name command_line a later h] at hr ⊢
      simp only [List.length_cons] at hmore ⊢
      cases i with
      | zero =>
        cases later with
        | nil => simp at hmore
        | cons b more =>
          have := Launch_attempts_pos name command_line b more
          omega
      | succ j =>
        simp only [List.getElem?_cons_succ] at hr
        have := ih j hr (by omega)
        omega
    · rw [(Launch_cons_final name command_line a later h).1] at hr
      cases i with
      | zero =>
        simp only [List.getElem?_cons_zero, Option.some.injEq] at hr
        rw [← hr] at hc
        exact absurd hc h
      | succ j => simp at hr

theorem Launch_returned (name : String) (command_line : CommandLine) (envs : List Attempt)
    (hexit : (Launch name command_line envs).exit = Exit.returned) :
    ∃ (earlier : List AttemptResult) (last : AttemptResult),
      (Launch name command_line envs).attempts = earlier ++ [last] ∧
      (∀ r ∈ earlier, r.crashed) ∧
      (last.outcome = Outcome.help ∧ Step.Connected ∉ last.steps ∨
        last.outcome = Outcome.stopped ∧
          ∃ before : List Step,
            last.steps = before ++ [Step.Updated false, Step.Uninstalled]) := by
  induction envs with
  | nil => simp [Launch] at hexit
  | cons a later ih =>
    by_cases h : (runAttempt name command_line a).crashed
    · rw [Launch_cons_crashed name command_line a later h] at hexit ⊢
      obtain ⟨earlier, last, hatt, hall, hlast⟩ := ih hexit
      refine ⟨runAttempt name command_line a :: earlier, last, by simp [hatt], ?_, hlast⟩
      intro r hr
      rcases List.mem_cons.mp hr with e | m
      · rw [e]; exact h
      · exact hall r m
    · have hfinal := Launch_cons_final name command_line a later h
      refine ⟨[], runAttempt name command_line a, by simp [hfinal.1], by simp, ?_⟩
      rcases hfinal.2 hexit with hhelp | hstop
      · refine Or.inl ⟨hhelp, ?_⟩
        rw [(runAttempt_shape name command_line a).1 hhelp]
        decide
      · exact Or.inr ⟨hstop, (runAttempt_shape name command_line a).2 hstop⟩

/-- C16, as amended. With `Launch` as a loop over attempts: every attempt made is the
run of its own description from a newly constructed service, whatever the attempts
before it did; an attempt in which a call throws a `std::exception` is followed by the
next attempt; and `Launch` returns only after attempts that all threw a
`std::exception` and a last one in which either help was requested, and then `Connect`
was not called, or `Update` returned false and `Uninstall` returned. -/
theorem Launch_restarts_after_std_exception (name : String) (command_line : CommandLine)
    (envs : List Attempt) :
    (Launch name command_line envs).attempts =
      (envs.take (Launch name command_line envs).attempts.length).map
        (runAttempt name command_line) ∧
    (∀ (i : Nat) (r : AttemptResult),
      (Launch name command_line envs).attempts[i]? = some r → r.crashed →
      i + 1 < envs.length → i + 1 < (Launch name command_line envs).attempts.length) ∧
    ((Launch name command_line envs).exit = Exit.returned →
      ∃ (earlier : List AttemptResult) (last : AttemptResult),
        (Launch name command_line envs).attempts = earlier ++ [last] ∧
        (∀ r ∈ earlier, r.crashed) ∧
        (last.outcome = Outcome.help ∧ Step.Connected ∉ last.steps ∨
          last.outcome = Outcome.stopped ∧
            ∃ before : List Step,
              last.steps = before ++ [Step.Updated false, Step.Uninstalled])) :=
  ⟨Launch_attempts_fresh name command_line envs,
    fun i r hr hc hmore => Launch_next_attempt name command_line envs i r hr hc hmore,
    Launch_returned name command_line envs⟩

/-- C16, amended claim at a concrete input: the server refuses the first two
connections, the third attempt runs until a `shutdown` command. -/
theorem Launch_restarts_after_std_exception_witness :
    (Launch "svc" CommandLine.absent
      [Attempt.refused, Attempt.refused, Attempt.clean]).attempts[1]? =
      some (runAttempt "svc" CommandLine.absent Attempt.refused) ∧
    (runAttempt "svc" CommandLine.absent Attempt.refused).crashed ∧
    1 + 1 < [Attempt.refused, Attempt.refused, Attempt.clean].length ∧
    1 + 1 <
      (Launch "svc" CommandLine.absent
        [Attempt.refused, Attempt.refused, Attempt.clean]).attempts.length ∧
    (Launch "svc" CommandLine.absent
      [Attempt.refused, Attempt.refused, Attempt.clean]).exit = Exit.returned :=
  ⟨by decide, ⟨Stage.Connect, "Connection refused", by decide⟩, by decide,
    (Launch_restarts_after_std_exception "svc" CommandLine.absent
      [Attempt.refused, Attempt.refused, Attempt.clean]).2.1 1
      (runAttempt "svc" CommandLine.absent Attempt.refused) (by decide)
      ⟨Stage.Connect, "Connection refused", by decide⟩ (by decide),
    by decide⟩

/-- C16, counterexample. In the first attempt a call of `Update` throws an object that
is no `std::exception`: the handler of `Launch` does not catch it, the object leaves
`Launch`, and no second attempt is made although one is described. -/
theorem Launch_foreign_failure_not_restarted :
    (runAttempt "svc" CommandLine.absent Attempt.foreign).outcome =
      Outcome.threw Stage.Update Thrown.other ∧
    (Launch "svc" CommandLine.absent [Attempt.foreign, Attempt.clean]).attempts.length = 1 ∧
    (Launch "svc" CommandLine.absent [Attempt.foreign, Attempt.clean]).exit =
      Exit.propagated Thrown.other := by
  decide

/-! ## The log client -/

namespace Clients

/-- C19, the code at the failing input. For every author and every time, constructing a
`LogClient` with an empty connection pointer ends in a call through that pointer: no
client in offline mode is produced. -/
theorem LogClient_create_null_connection_faults (local_time : LocalTime) (author : String) :
    LogClient.create local_time author none = Except.error Fault.null_dereference := by
  simp [LogClient.create]

end Clients

/-! ## The heartbeat of the background consumer -/

/-- C21, the code at the failing input. The service is installed at time 0. A pass at
1500 ms refreshes the record (it now lapses at 3500 ms) and leaves `LastHeartBeatTime`
at 0; the next pass, one millisecond later, refreshes again (3501 ms); and a pass at
5000 ms in which `consume()` times out does not refresh at all. -/
theorem MessageUpdaterPass_heartbeat_not_reset :
    TestService.shadowedRuntime.service.LastHeartBeatTime = 0 ∧
    (TestService.shadowedRuntime.MessageUpdaterPass TestService.command
      1500).service.LastHeartBeatTime = 0 ∧
    Redis.entry
      (TestService.shadowedRuntime.MessageUpdaterPass TestService.command
        1500).NameResolver.Connection 1500 "names/svc" =
      some { value := "addr", expire_at := some 3500 } ∧
    Redis.entry
      ((TestService.shadowedRuntime.MessageUpdaterPass TestService.command
        1500).MessageUpdaterPass TestService.command 1501).NameResolver.Connection 1501
        "names/svc" =
      some { value := "addr", expire_at := some 3501 } ∧
    (TestService.shadowedRuntime.MessageUpdaterPass TestService.timeout 5000).NameResolver =
      TestService.shadowedRuntime.NameResolver := by
  decide

/-! ## The command table after `Connect` and `Install` -/

theorem Install_empty_body (s : Service) (now : Nat) :
    (s.Install [] now).CommandHandlers =
      [("pause", some Callable.pause), ("resume", some Callable.resume),
       ("shutdown", some Callable.shutdown)] ∧
    (s.Install [] now).Enable = true := by
  have h1 : ¬ "pause" = "resume" := by decide
  have h2 : ¬ "pause" = "shutdown" := by decide
  have h3 : ¬ "resume" = "shutdown" := by decide
  simp [Service.Install, Service.OnInstall, Service.AddCommand, Service.record,
    UnorderedMap.emplace, UnorderedMap.find, h1, h2, h3]

theorem Connect_CommandHandlers (s : Service) :
    s.Connect.CommandHandlers = s.CommandHandlers := by
  rfl

/-- C22. For every prior command table and every prior value of `Enable`, after
`Install()` with an `OnInstall` that registers nothing the command table holds exactly
the names `pause`, `resume` and `shutdown`, each with its built-in handler, and
`Enable` is true. -/
theorem Install_resets_command_table (s : Service) (now : Nat) :
    (s.Install [] now).CommandHandlers =
      [("pause", some Callable.pause), ("resume", some Callable.resume),
       ("shutdown", some Callable.shutdown)] ∧
    (s.Install [] now).CommandHandlers.map Prod.fst = ["pause", "resume", "shutdown"] ∧
    (∀ name : String,
      UnorderedMap.find (s.Install [] now).CommandHandlers name =
        if name = "pause" then some (some Callable.pause)
        else if name = "resume" then some (some Callable.resume)
        else if name = "shutdown" then some (some Callable.shutdown)
        else none) ∧
    (s.Install [] now).Enable = true := by
  have h := Install_empty_body s now
  refine ⟨h.1, by rw [h.1]; rfl, ?_, h.2⟩
  intro name
  rw [h.1]
  simp only [UnorderedMap.find]
  by_cases hp : "pause" = name
  · simp [← hp]
  · by_cases hr : "resume" = name
    · have : ¬ "resume" = "pause" := by decide
      simp [← hr, this]
    · by_cases hs : "shutdown" = name
      · have a : ¬ "shutdown" = "pause" := by decide
        have b : ¬ "shutdown" = "resume" := by decide
        simp [← hs, a, b]
      · have a : ¬ name = "pause" := fun e => hp e.symm
        have b : ¬ name = "resume" := fun e => hr e.symm
        have c : ¬ name = "shutdown" := fun e => hs e.symm
        simp [hp, hr, hs, a, b, c]

/-- C23, as amended. `Connect` leaves the command table of every service as it is, so
after `Connect` on a newly constructed service and before any `Install()` the table is
empty; the three built-in commands are in the table once `Install()` has run. -/
theorem Connect_registers_no_command (s : Service) (name : String) (now : Nat) :
    s.Connect.CommandHandlers = s.CommandHandlers ∧
    (Service.create name).Connect.CommandHandlers = [] ∧
    ((Service.create name).Connect.Install [] now).CommandHandlers =
      [("pause", some Callable.pause), ("resume", some Callable.resume),
       ("shutdown", some Callable.shutdown)] :=
  ⟨Connect_CommandHandlers s, rfl, (Install_empty_body _ now).1⟩

/-- C23, counterexample. After `Connect` on a new service the command table holds no
entry for `pause`, `resume` or `shutdown`, and a `pause` command would be reported as
unknown. -/
theorem Connect_leaves_table_empty :
    (Service.create "svc").Connect.CommandHandlers = [] ∧
    UnorderedMap.find (Service.create "svc").Connect.CommandHandlers "pause" = none ∧
    UnorderedMap.find (Service.create "svc").Connect.CommandHandlers "resume" = none ∧
    UnorderedMap.find (Service.create "svc").Connect.CommandHandlers "shutdown" = none ∧
    errors ((Service.create "svc").Connect.HandleCommand "pause" "").Trace =
      ["Unknown command received: pause"] := by
  decide

/-! ## Registering a name twice -/

namespace Clients

theorem emplace_of_find_some {β : Type} (m : List (String × β)) (key : String) (v w : β)
    (h : UnorderedMap.find m key = some w) : UnorderedMap.emplace m key v = m := by
  simp [UnorderedMap.emplace, h]

theorem emplace_of_find_none {β : Type} (m : List (String × β)) (key : String) (v : β)
    (h : UnorderedMap.find m key = none) : UnorderedMap.emplace m key v = m ++ [(key, v)] := by
  simp [UnorderedMap.emplace, h]

theorem RegisterName_Names_owned (c : NameClient) (now : Nat) (n a b : String)
    (h : UnorderedMap.find c.Names n = some b) : (c.RegisterName now n a).Names = c.Names := by
  simp [NameClient.RegisterName, emplace_of_find_some c.Names n a b h]

theorem RegisterName_owns (c : NameClient) (now : Nat) (n a : String) :
    ∃ b : String, UnorderedMap.find (c.RegisterName now n a).Names n = some b := by
  cases h : UnorderedMap.find c.Names n with
  | some b => exact ⟨b, by simp [NameClient.RegisterName, find_emplace, h]⟩
  | none => exact ⟨a, by simp [NameClient.RegisterName, find_emplace, h]⟩

/-- C24. For every client that does not own `n` yet and all addresses `a1`, `a2`: after
`RegisterName(n, a1)` and `RegisterName(n, a2)` the record `"names/" + n` holds `a2`
while the owned entry of `n` holds `a1`; a later `Update()` handles `n` last, with the
address `a1`, and when it takes the branch that writes the record, the record holds
`a1`; and a second registration of a name, with the same or another address, leaves
the owned names as they are. -/
theorem RegisterName_keeps_first_address (c : NameClient) (t1 t2 later : Nat)
    (n a1 a2 : String) (hnew : UnorderedMap.find c.Names n = none) :
    Redis.GET (c.registeredTwice t1 t2 n a1 a2).Connection t2 ("names/" ++ n) = some a2 ∧
    UnorderedMap.find (c.registeredTwice t1 t2 n a1 a2).Names n = some a1 ∧
    (c.registeredTwice t1 t2 n a1 a2).Update later =
      NameClient.UpdateName
        (c.Names.foldl (fun t entry => NameClient.UpdateName t later entry.1 entry.2)
          (c.registeredTwice t1 t2 n a1 a2)) later n a1 ∧
    (Redis.EXISTS
        (c.Names.foldl (fun t entry => NameClient.UpdateName t later entry.1 entry.2)
          (c.registeredTwice t1 t2 n a1 a2)).Connection later n = false →
      Redis.GET ((c.registeredTwice t1 t2 n a1 a2).Update later).Connection later
        ("names/" ++ n) = some a1) ∧
    (c.registeredTwice t1 t2 n a1 a2).Names = (c.RegisterName t1 n a1).Names ∧
    (c.registeredTwice t1 t2 n a1 a1).Names = (c.RegisterName t1 n a1).Names := by
  have hfirst : (c.RegisterName t1 n a1).Names = c.Names ++ [(n, a1)] := by
    simp [NameClient.RegisterName, emplace_of_find_none c.Names n a1 hnew]
  have hfind : UnorderedMap.find (c.RegisterName t1 n a1).Names n = some a1 := by
    rw [hfirst, find_append, hnew]
    simp [UnorderedMap.find]
  have hnames : ∀ a : String,
      (c.registeredTwice t1 t2 n a1 a).Names = c.Names ++ [(n, a1)] := by
    intro a
    rw [NameClient.registeredTwice, RegisterName_Names_owned _ t2 n a a1 hfind, hfirst]
  have hupdate : (c.registeredTwice t1 t2 n a1 a2).Update later =
      NameClient.UpdateName
        (c.Names.foldl (fun t entry => NameClient.UpdateName t later entry.1 entry.2)
          (c.registeredTwice t1 t2 n a1 a2)) later n a1 := by
    simp only [NameClient.Update, hnames a2, List.foldl_append, List.foldl_cons,
      List.foldl_nil]
  refine ⟨?_, ?_, hupdate, ?_, ?_, ?_⟩
  · simp [NameClient.registeredTwice, NameClient.RegisterName, Redis.GET, Redis.SET,
      Redis.entry, UnorderedMap.find, Redis.alive, seconds]
  · rw [hnames a2, find_append, hnew]
    simp [UnorderedMap.find]
  · intro habsent
    rw [hupdate, Redis.GET, UpdateName_without_bare_key _ later later n a1 habsent]
    rfl
  · rw [hnames a2, hfirst]
  · rw [hnames a1, hfirst]

/-- C24 at a concrete input: `svc` is registered with `addr` and then with `other`; the
record holds `other`, the owned entry `addr`, and an `Update()` after the record has
lapsed writes `addr`. -/
theorem RegisterName_keeps_first_address_witness :
    UnorderedMap.find NameClient.connect.Names "svc" = none ∧
    Redis.GET (NameClient.connect.registeredTwice 0 500 "svc" "addr" "other").Connection 500
      ("names/" ++ "svc") = some "other" ∧
    UnorderedMap.find (NameClient.connect.registeredTwice 0 500 "svc" "addr" "other").Names
      "svc" = some "addr" ∧
    Redis.GET
      ((NameClient.connect.registeredTwice 0 500 "svc" "addr" "other").Update 4000).Connection
      4000 ("names/" ++ "svc") = some "addr" :=
  ⟨by decide,
    (RegisterName_keeps_first_address NameClient.connect 0 500 4000 "svc" "addr" "other"
      (by decide)).1,
    (RegisterName_keeps_first_address NameClient.connect 0 500 4000 "svc" "addr" "other"
      (by decide)).2.1,
    (RegisterName_keeps_first_address NameClient.connect 0 500 4000 "svc" "addr" "other"
      (by decide)).2.2.2.1 (by decide)⟩

end Clients

end Gaia.Framework
